import Mathlib

/-!
# Verification of the maude terminal client core

Shallow embedding of the maude repository's core components, translated
from the Python source:

* `src/maude/session.py` — the session / mode state machine (`MaudeSession`);
* `src/maude/intents.py` — the intent classifier (`parse_intent`);
* `src/maude/client/rpc.py` — the JSON-RPC correlation engine
  (`_next_id`, `_call`, `_call_streaming`) and the Content-Length
  framing codec (`_read_message`, `_write_message`);
* `src/maude/app.py` — the lock-spec command handler
  (`MaudeApp._handle_lock_spec`).

JSON values are modelled by the inductive type `Json` (numbers restricted
to integers, which is what the protocol messages carry: request ids and
error codes).  Inbound protocol messages, which the Python code receives
as `dict` values from `json.loads`, are modelled as association lists
`Jobj`.  The asynchronous read loops of `_call` / `_call_streaming`,
which consume one inbound message per iteration and see `None` on
end-of-stream, are modelled as pure functions over the finite list of
messages the transport yields before end-of-stream.
-/

/-- JSON values, as produced by `json.loads` / consumed by `json.dumps`.
Numbers are restricted to integers: the protocol messages of this
repository carry only integer numerics (request ids, error codes);
floating-point payloads are outside the model. -/
inductive Json where
  | null
  | bool (b : Bool)
  | num (n : Int)
  | str (s : String)
  | arr (elems : List Json)
  | obj (members : List (String × Json))
deriving Repr

/-- A JSON object, i.e. a Python `dict` as an ordered association list. -/
abbrev Jobj := List (String × Json)

/-- Python `dict` lookup `d.get(k)` on an association list; with duplicate
keys the later binding wins, matching `json.loads` building a `dict`. -/
def dget : Jobj → String → Option Json
  | [], _ => none
  | (k, v) :: t, key =>
    match dget t key with
    | some w => some w
    | none => if k = key then some v else none

/-- Python `==` between a JSON value and an `int` (as in
`resp.get("id") == request_id`): integers compare by value, and booleans
compare as 0/1 (`True == 1` in Python); every other shape is unequal. -/
def pyEqInt : Json → Int → Bool
  | .num m, n => m == n
  | .bool b, n => (if b then (1 : Int) else 0) == n
  | _, _ => false

/-- Python `==` between a JSON value and a `str` (as in
`resp.get("method") == notification_method`). -/
def pyEqStr : Json → String → Bool
  | .str s, t => s == t
  | _, _ => false

/-- Python truthiness of a JSON value (as in `if content:`). -/
def Json.truthy : Json → Bool
  | .null => false
  | .bool b => b
  | .num n => n != 0
  | .str s => s != ""
  | .arr l => !l.isEmpty
  | .obj l => !l.isEmpty

/-! ## Session state machine (`src/maude/session.py`) -/

/-- `Mode` from `session.py`. -/
inductive Mode where
  | PLAN
  | BUILD
deriving Repr, DecidableEq

/-- `MaudeSession` from `session.py` (the fields the operations touch;
`last_governor_now` is an opaque display snapshot and is omitted). -/
structure MaudeSession where
  mode : Mode := .PLAN
  governor_session_id : Option String := none
  spec_draft : String := ""
  spec_locked : Bool := false
  spec_template : Option String := none
  spec_template_content : String := ""
  messages : List (String × String) := []
  project_name : String := ""
  backend_type : String := ""
deriving Repr, DecidableEq

/-- The initial session state (all dataclass defaults). -/
def initialSession : MaudeSession := {}

/-- `MaudeSession.add_message`. -/
def MaudeSession.add_message (s : MaudeSession) (role content : String) : MaudeSession :=
  { s with messages := s.messages ++ [(role, content)] }

/-- `MaudeSession.load_template`. -/
def MaudeSession.load_template (s : MaudeSession) (name content : String) : MaudeSession :=
  { s with spec_template := some name, spec_template_content := content }

/-- `MaudeSession.clear_template`. -/
def MaudeSession.clear_template (s : MaudeSession) : MaudeSession :=
  { s with spec_template := none, spec_template_content := "" }

/-- `MaudeSession.lock_spec`: sets the lock flag and returns the draft. -/
def MaudeSession.lock_spec (s : MaudeSession) : String × MaudeSession :=
  (s.spec_draft, { s with spec_locked := true })

/-- `MaudeSession.unlock_spec`. -/
def MaudeSession.unlock_spec (s : MaudeSession) : MaudeSession :=
  { s with spec_locked := false }

/-- `MaudeSession.set_mode`: raises `ValueError` (modelled as `Except.error`)
when entering BUILD without a locked spec, otherwise sets the mode. -/
def MaudeSession.set_mode (s : MaudeSession) (mode : Mode) : Except String MaudeSession :=
  if mode = .BUILD ∧ s.spec_locked = false then
    .error "Cannot enter BUILD mode without a locked spec"
  else
    .ok { s with mode := mode }

/-- One session operation, for reachability statements over operation
sequences. -/
inductive SessionOp where
  | add_message (role content : String)
  | load_template (name content : String)
  | clear_template
  | lock_spec
  | unlock_spec
  | set_mode (m : Mode)
deriving Repr, DecidableEq

/-- Apply one operation to a session.  A failed `set_mode` raises in
Python before any mutation, so it leaves the state unchanged; `lock_spec`
returns the draft to the caller, which does not affect the state. -/
def applyOp (s : MaudeSession) : SessionOp → MaudeSession
  | .add_message r c => s.add_message r c
  | .load_template n c => s.load_template n c
  | .clear_template => s.clear_template
  | .lock_spec => (s.lock_spec).2
  | .unlock_spec => s.unlock_spec
  | .set_mode m =>
    match s.set_mode m with
    | .ok s2 => s2
    | .error _ => s

/-- Run a sequence of operations from a starting state. -/
def runOps (s : MaudeSession) (ops : List SessionOp) : MaudeSession :=
  ops.foldl applyOp s

/-! ## Intent classifier (`src/maude/intents.py`) -/

/-- `IntentKind` from `intents.py` (the version committed under `src/`). -/
inductive IntentKind where
  | PLAN
  | LOCK_SPEC
  | BUILD
  | SHOW_SPEC
  | SHOW_DIFF
  | APPLY
  | ROLLBACK
  | WHY
  | STATUS
  | HELP
  | CHAT
deriving Repr, DecidableEq

/-- `Intent` from `intents.py`. -/
structure Intent where
  kind : IntentKind
  payload : String
deriving Repr, DecidableEq

/-- ASCII lower-casing of one character, modelling `re.IGNORECASE`
matching of the ASCII-only patterns in `_PATTERNS`. -/
def lowerChar (c : Char) : Char :=
  if 'A' ≤ c ∧ c ≤ 'Z' then Char.ofNat (c.toNat + 32) else c

/-- Python's `\w` word character (`[a-zA-Z0-9_]` on this ASCII input). -/
def isWordChar (c : Char) : Bool :=
  c.isAlpha || c.isDigit || c = '_'

/-- Whitespace stripped by Python `str.strip()`. -/
def isPySpace (c : Char) : Bool :=
  c = ' ' || c = '\t' || c = '\n' || c = '\r' || c = '\x0b' || c = '\x0c'

/-- Python `text.strip()`. -/
def pyStrip (l : List Char) : List Char :=
  ((l.dropWhile isPySpace).reverse.dropWhile isPySpace).reverse

/-- Match a lowercase keyword case-insensitively at the start of the
input, returning the remainder (the `^keyword` part of a pattern). -/
def matchKeyword : List Char → List Char → Option (List Char)
  | [], rest => some rest
  | _ :: _, [] => none
  | k :: ks, c :: cs => if lowerChar c = k then matchKeyword ks cs else none

/-- `re.search` of an anchored `^kw\b` pattern with `re.IGNORECASE`:
the keyword at the start, followed by end-of-input or a non-word
character. -/
def matchWordStart (kw : String) (s : List Char) : Bool :=
  match matchKeyword kw.data s with
  | some [] => true
  | some (c :: _) => !isWordChar c
  | none => false

/-- `re.search` of an anchored `^kw$` pattern with `re.IGNORECASE`:
the whole input equals the keyword up to case. -/
def matchExact (kw : String) (s : List Char) : Bool :=
  s.map lowerChar = kw.data

/-- The apostrophe character, kept out of string literals. -/
def apos : Char := Char.ofNat 39

/-- The `^let'?s plan\b` pattern: "lets plan" or "let's plan" at the
start, followed by a word boundary. -/
def matchLetsPlan (s : List Char) : Bool :=
  matchWordStart "lets plan" s ||
    (match s with
     | 'l' :: 'e' :: 't' :: c :: rest =>
       c = apos && matchWordStart "s plan" rest
     | _ => false)

/-- `parse_intent` from `intents.py`: first-match-wins over the ordered
`_PATTERNS` list, falling through to `CHAT` with the stripped text. -/
def parse_intent (text : String) : Intent :=
  let stripped := pyStrip text.data
  let payload := String.mk stripped
  if matchWordStart "plan" stripped then ⟨.PLAN, payload⟩
  else if matchLetsPlan stripped then ⟨.PLAN, payload⟩
  else if matchExact "lock spec" stripped then ⟨.LOCK_SPEC, payload⟩
  else if matchExact "freeze spec" stripped then ⟨.LOCK_SPEC, payload⟩
  else if matchExact "build" stripped then ⟨.BUILD, payload⟩
  else if matchExact "implement" stripped then ⟨.BUILD, payload⟩
  else if matchExact "do it" stripped then ⟨.BUILD, payload⟩
  else if matchExact "show spec" stripped then ⟨.SHOW_SPEC, payload⟩
  else if matchExact "spec" stripped then ⟨.SHOW_SPEC, payload⟩
  else if matchExact "show diff" stripped then ⟨.SHOW_DIFF, payload⟩
  else if matchExact "diff" stripped then ⟨.SHOW_DIFF, payload⟩
  else if matchExact "apply" stripped then ⟨.APPLY, payload⟩
  else if matchExact "merge" stripped then ⟨.APPLY, payload⟩
  else if matchExact "rollback" stripped then ⟨.ROLLBACK, payload⟩
  else if matchExact "undo" stripped then ⟨.ROLLBACK, payload⟩
  else if matchWordStart "why" stripped then ⟨.WHY, payload⟩
  else if matchExact "blocked" stripped then ⟨.WHY, payload⟩
  else if matchExact "status" stripped then ⟨.STATUS, payload⟩
  else if matchExact "state" stripped then ⟨.STATUS, payload⟩
  else if matchExact "help" stripped then ⟨.HELP, payload⟩
  else if stripped = ['?'] then ⟨.HELP, payload⟩
  else ⟨.CHAT, payload⟩

/-! ## Request id assignment (`GovernorClient._next_id`) -/

/-- `GovernorClient._next_id`: increments `self._request_id` (initially 0)
and returns it; the pair is (assigned id, new counter). -/
def next_id (request_id : Nat) : Nat × Nat :=
  (request_id + 1, request_id + 1)

/-- Which operation a call uses; both call `_next_id` exactly once. -/
inductive CallKind where
  | unary
  | streaming
deriving Repr, DecidableEq

/-- The ids assigned over a sequence of calls on one client instance.
Each entry of `calls` is one call (unary or streaming) together with the
arbitrary inbound message list its read loop consumes; neither affects
the counter, which only `_next_id` touches. -/
def clientCallIds : Nat → List (CallKind × List Jobj) → List Nat
  | _, [] => []
  | st, _ :: rest =>
    let (i, st2) := next_id st
    i :: clientCallIds st2 rest

/-! ## RPC read loops (`GovernorClient._call`, `_call_streaming`) -/

/-- Outcome of `_call`'s read loop. -/
inductive CallResult where
  | connError
  | rpcError (code message : Option Json)
  | typeError
  | ok (result : Option Json)
deriving Repr

/-- The read loop of `GovernorClient._call` over the finite list of
inbound messages the transport yields before end-of-stream: skip
messages with no id, skip non-matching ids, and resolve on the matching
response (`rpcError` models the raised `RuntimeError`; `typeError`
models the `AttributeError` from `err.get` when the error member is not
an object; `connError` models the `ConnectionError` raised when
`_read_message` returns `None`). -/
def callLoop (request_id : Int) : List Jobj → CallResult
  | [] => .connError
  | resp :: rest =>
    match dget resp "id" with
    | none => callLoop request_id rest
    | some idv =>
      if pyEqInt idv request_id then
        match dget resp "error" with
        | some (.obj err) => .rpcError (dget err "code") (dget err "message")
        | some _ => .typeError
        | none => .ok (dget resp "result")
      else callLoop request_id rest

/-- How `_call_streaming`'s loop ends. -/
inductive StreamEnd where
  | connError
  | rpcError (code message : Option Json)
  | typeError
  | done (result : Option Json)
deriving Repr

/-- The read loop of `GovernorClient._call_streaming`: for a message
with no id whose method equals `notification_method`, extract
`resp.get("params", \x7b\x7d).get("content", "")` and yield it when
truthy (`typeError` models the `AttributeError` when a present `params`
is not an object); any other id-less message is skipped; a message with
the matching id ends the loop without being yielded; end-of-stream
raises `ConnectionError`.  Returns the yielded values in order, with the
loop's ending. -/
def streamLoop (request_id : Int) (notification_method : String) :
    List Jobj → List Json × StreamEnd
  | [] => ([], .connError)
  | resp :: rest =>
    match dget resp "id" with
    | none =>
      if pyEqStr ((dget resp "method").getD .null) notification_method then
        match dget resp "params" with
        | none => streamLoop request_id notification_method rest
        | some (.obj ps) =>
          let content := (dget ps "content").getD (.str "")
          if content.truthy then
            let p := streamLoop request_id notification_method rest
            (content :: p.1, p.2)
          else
            streamLoop request_id notification_method rest
        | some _ => ([], .typeError)
      else streamLoop request_id notification_method rest
    | some idv =>
      if pyEqInt idv request_id then
        match dget resp "error" with
        | some (.obj err) => ([], .rpcError (dget err "code") (dget err "message"))
        | some _ => ([], .typeError)
        | none => ([], .done (dget resp "result"))
      else streamLoop request_id notification_method rest

/-- What one id-less inbound message contributes to the yielded stream:
its content field when the method matches and the content is truthy,
nothing otherwise. -/
def notifYield (notification_method : String) (m : Jobj) : Option Json :=
  if pyEqStr ((dget m "method").getD .null) notification_method then
    match dget m "params" with
    | some (.obj ps) =>
      let content := (dget ps "content").getD (.str "")
      if content.truthy then some content else none
    | _ => none
  else none

/-- The `params` member, when present, is an object (the wire contract
of §6: `params` is an object), so that `.get("content", "")` does not
raise `AttributeError`. -/
def ParamsWf (m : Jobj) : Prop :=
  ∀ p, dget m "params" = some p → ∃ kvs, p = Json.obj kvs

/-- A well-formed inbound notification: no id, and well-formed params. -/
def WfNotification (m : Jobj) : Prop :=
  dget m "id" = none ∧ ParamsWf m

/-- A message whose id matches the outstanding request id. -/
def MatchesId (m : Jobj) (request_id : Int) : Prop :=
  ∃ v, dget m "id" = some v ∧ pyEqInt v request_id = true

/-! ## Lock-spec command handler (`MaudeApp._handle_lock_spec`) -/

/-- Whether the best-effort remote `add_constraint` call succeeds or
raises. -/
inductive RemoteOutcome where
  | ok
  | failed
deriving Repr, DecidableEq

/-- Observable events of the lock-spec handler, in the order they
happen. -/
inductive LockEvent where
  | localLock
  | remoteSubmit
deriving Repr, DecidableEq

/-- `MaudeApp._handle_lock_spec`: with an empty draft it returns without
touching the session; otherwise it locks the session locally
(`self.session.lock_spec()`), then attempts the remote constraint
submission inside `try/except` — a failure is logged and the local state
is kept.  Returns the resulting session and the ordered event trace. -/
def handle_lock_spec (s : MaudeSession) (remote : RemoteOutcome) :
    MaudeSession × List LockEvent :=
  if s.spec_draft = "" then
    (s, [])
  else
    let locked := s.lock_spec
    match remote with
    | .ok => (locked.2, [.localLock, .remoteSubmit])
    | .failed => (locked.2, [.localLock, .remoteSubmit])

/-! ## Decimal and UTF-8 helpers for the framing codec -/

/-- The decimal digit character for `d < 10`. -/
def decDigit (d : Nat) : Char := Char.ofNat (48 + d)

/-- Decimal digits of `n`, least significant first. -/
def natToRevDigits : Nat → List Char
  | 0 => []
  | n + 1 => decDigit ((n + 1) % 10) :: natToRevDigits ((n + 1) / 10)
termination_by n => n
decreasing_by omega

/-- The decimal representation of a natural number, as Python prints
it. -/
def natDump (n : Nat) : List Char :=
  if n = 0 then ['0'] else (natToRevDigits n).reverse

/-- The decimal representation of a Python `int`. -/
def intDump (n : Int) : List Char :=
  if n < 0 then '-' :: natDump n.natAbs else natDump n.natAbs

/-- ASCII decimal digit test. -/
def isDigitChar (c : Char) : Bool := 48 ≤ c.toNat && c.toNat ≤ 57

/-- Value of a list of decimal digit characters. -/
def digitsVal (l : List Char) : Nat :=
  l.foldl (fun a c => 10 * a + (c.toNat - 48)) 0

/-- Python `int(s)` on an already-stripped string: optional sign then
decimal digits, else `ValueError` (modelled as `none`; digit-group
underscores are not modelled — no caller produces them). -/
def pyInt (s : String) : Option Int :=
  if s.data.head? = some '-' then
    if s.data.tail ≠ [] ∧ s.data.tail.all isDigitChar then
      some (-(digitsVal s.data.tail : Int))
    else none
  else if s.data.head? = some '+' then
    if s.data.tail ≠ [] ∧ s.data.tail.all isDigitChar then
      some ((digitsVal s.data.tail : Int))
    else none
  else if s.data ≠ [] ∧ s.data.all isDigitChar then
    some ((digitsVal s.data : Int))
  else none

/-- Number of bytes the UTF-8 encoding of a character occupies (the
stream is modelled at character granularity; `len(....encode("utf-8"))`
and `readexactly` counts are byte counts computed from this). -/
def utf8Len (c : Char) : Nat :=
  if c.toNat < 0x80 then 1
  else if c.toNat < 0x800 then 2
  else if c.toNat < 0x10000 then 3
  else 4

/-- `len(s.encode("utf-8"))`. -/
def utf8ByteLength (l : List Char) : Nat := (l.map utf8Len).sum

/-! ## `json.dumps` (default settings: `ensure_ascii=True`, separators
`", "` and `": "`, insertion key order) -/

/-- Opening brace character (kept out of literals). -/
def lbrace : Char := Char.ofNat 0x7B

/-- Closing brace character (kept out of literals). -/
def rbrace : Char := Char.ofNat 0x7D

/-- Lowercase hexadecimal digit character for `d < 16`. -/
def hexDigit (d : Nat) : Char :=
  if d < 10 then Char.ofNat (48 + d) else Char.ofNat (87 + d)

/-- Four lowercase hex digits of `n < 0x10000` (Python `'\\u%04x'`). -/
def hex4 (n : Nat) : List Char :=
  [hexDigit (n / 4096 % 16), hexDigit (n / 256 % 16), hexDigit (n / 16 % 16), hexDigit (n % 16)]

/-- `json.dumps` escaping of one string character with
`ensure_ascii=True`: the named short escapes, printable ASCII verbatim,
and `\uXXXX` (with a surrogate pair beyond the BMP) for everything
else. -/
def escChar (c : Char) : List Char :=
  if c = '"' then ['\\', '"']
  else if c = '\\' then ['\\', '\\']
  else if c = '\n' then ['\\', 'n']
  else if c = '\r' then ['\\', 'r']
  else if c = '\t' then ['\\', 't']
  else if c = '\x08' then ['\\', 'b']
  else if c = '\x0c' then ['\\', 'f']
  else if 0x20 ≤ c.toNat ∧ c.toNat ≤ 0x7E then [c]
  else if c.toNat < 0x10000 then '\\' :: 'u' :: hex4 c.toNat
  else
    ('\\' :: 'u' :: hex4 (0xD800 + (c.toNat - 0x10000) / 0x400)) ++
      ('\\' :: 'u' :: hex4 (0xDC00 + (c.toNat - 0x10000) % 0x400))

/-- A serialized JSON string: quote, escaped characters, quote. -/
def dumpStringChars (s : List Char) : List Char :=
  '"' :: (s.map escChar).flatten ++ ['"']

mutual

/-- `json.dumps(msg)` as a character sequence. -/
def dumpChars : Json → List Char
  | .null => "null".data
  | .bool true => "true".data
  | .bool false => "false".data
  | .num n => intDump n
  | .str s => dumpStringChars s.data
  | .arr xs => '[' :: dumpElems xs ++ [']']
  | .obj kvs => lbrace :: dumpMembers kvs ++ [rbrace]

/-- Array elements joined by `", "`. -/
def dumpElems : List Json → List Char
  | [] => []
  | [x] => dumpChars x
  | x :: y :: t => dumpChars x ++ ',' :: ' ' :: dumpElems (y :: t)

/-- Object members `"key": value` joined by `", "`. -/
def dumpMembers : List (String × Json) → List Char
  | [] => []
  | [(k, v)] => dumpStringChars k.data ++ ':' :: ' ' :: dumpChars v
  | (k, v) :: m :: t =>
    dumpStringChars k.data ++ ':' :: ' ' :: dumpChars v ++ ',' :: ' ' :: dumpMembers (m :: t)

end

/-- `_write_message(writer, msg)`: the bytes put on the wire — a
`Content-Length` header naming the UTF-8 byte length of the serialized
body, a blank line, then the body. -/
def write_message (msg : Json) : List Char :=
  let json_bytes := dumpChars msg
  ("Content-Length: ".data ++ natDump (utf8ByteLength json_bytes) ++
    ['\r', '\n', '\r', '\n']) ++ json_bytes

/-! ## Framed-message reader (`_read_message`, identically
`UnixSocketTransport.read_message`) -/

/-- `reader.readline()`: characters up to and including the first
newline, or everything when the stream ends first; with the rest of the
stream. -/
def readLine : List Char → List Char × List Char
  | [] => ([], [])
  | c :: rest =>
    if c = '\n' then ([c], rest)
    else
      let p := readLine rest
      (c :: p.1, p.2)

/-- Python `line.partition(":")`: the parts before and after the first
colon (before-part is the whole line when there is none, matching the
`":" in decoded` guard that precedes every use). -/
def partitionColon : List Char → List Char × List Char
  | [] => ([], [])
  | c :: rest =>
    if c = ':' then ([], rest)
    else
      let p := partitionColon rest
      (c :: p.1, p.2)

/-- `headers.get(key)` for the header `dict`; assignments append, so the
last binding wins, as for a Python `dict`. -/
def hdrGet : List (String × String) → String → Option String
  | [], _ => none
  | (k, v) :: t, key =>
    match hdrGet t key with
    | some w => some w
    | none => if k = key then some v else none

/-- The header loop of `read_message`: read lines until a blank line,
collecting `Key: Value` pairs (stripped); `none` models the
`return None` on end-of-stream before the blank line. -/
def readHeaders : List Char → List (String × String) →
    Option (List (String × String) × List Char)
  | [], _ => none
  | c :: r, headers =>
    let line := (readLine (c :: r)).1
    let rest := (readLine (c :: r)).2
    if line = ['\r', '\n'] ∨ line = ['\n'] then some (headers, rest)
    else if line.contains ':' then
      readHeaders rest (headers ++
        [(String.mk (pyStrip (partitionColon line).1),
          String.mk (pyStrip (partitionColon line).2))])
    else readHeaders rest headers
termination_by l _ => l.length
decreasing_by
  all_goals
    have h : ∀ l : List Char, (readLine l).2.length ≤ l.length := by
      intro l
      induction l with
      | nil => simp [readLine]
      | cons a t ih =>
        simp only [readLine]
        by_cases ha : a = '\n'
        · simp [ha]
        · simp only [ha, if_false, List.length_cons]
          omega
  all_goals
    simp only [readLine, List.length_cons]
  all_goals
    by_cases hc : c = '\n'
  all_goals
    simp only [hc, if_true, if_false]
  all_goals
    first
      | omega
      | (have hr := h r
         omega)

/-- `reader.readexactly(n)` on the character-modelled stream: take
characters totalling exactly `n` UTF-8 bytes; `none` when the stream is
too short or `n` falls inside a character (either way the Python read
loop raises). -/
def takeBytes : Nat → List Char → Option (List Char × List Char)
  | 0, rest => some ([], rest)
  | _ + 1, [] => none
  | n + 1, c :: rest =>
    if utf8Len c ≤ n + 1 then
      match takeBytes (n + 1 - utf8Len c) rest with
      | some p => some (c :: p.1, p.2)
      | none => none
    else none
termination_by _ l => l.length
decreasing_by simp

/-! ## `json.loads` (recursive descent over characters, fuel-indexed) -/

/-- JSON whitespace skipped by the decoder. -/
def isJsonWs (c : Char) : Bool := c = ' ' || c = '\t' || c = '\n' || c = '\r'

/-- Skip leading JSON whitespace. -/
def skipWs (l : List Char) : List Char := l.dropWhile isJsonWs

/-- Value of a hexadecimal digit character (either case). -/
def hexVal (c : Char) : Option Nat :=
  if 48 ≤ c.toNat ∧ c.toNat ≤ 57 then some (c.toNat - 48)
  else if 97 ≤ c.toNat ∧ c.toNat ≤ 102 then some (c.toNat - 87)
  else if 65 ≤ c.toNat ∧ c.toNat ≤ 70 then some (c.toNat - 55)
  else none

/-- Parse the body of a JSON string after the opening quote, returning
its characters and the input after the closing quote.  Strict mode: raw
control characters are rejected; `\uXXXX` escapes are decoded, a
high/low surrogate pair combining into one character (a lone surrogate,
which `json.dumps` never emits and a Lean `Char` cannot carry, is not
modelled). -/
def parseStringBody : Nat → List Char → Option (List Char × List Char)
  | 0, _ => none
  | _ + 1, [] => none
  | fuel + 1, c :: rest =>
    if c = '"' then some ([], rest)
    else if c = '\\' then
      match rest with
      | [] => none
      | e :: rest2 =>
        if e = 'u' then
          match rest2 with
          | a :: b :: d :: e4 :: rest3 =>
            match hexVal a, hexVal b, hexVal d, hexVal e4 with
            | some x1, some x2, some x3, some x4 =>
              if ((x1 * 16 + x2) * 16 + x3) * 16 + x4 < 0xD800 ∨
                  0xE000 ≤ ((x1 * 16 + x2) * 16 + x3) * 16 + x4 then
                match parseStringBody fuel rest3 with
                | some p => some (Char.ofNat (((x1 * 16 + x2) * 16 + x3) * 16 + x4) :: p.1, p.2)
                | none => none
              else if ((x1 * 16 + x2) * 16 + x3) * 16 + x4 < 0xDC00 then
                match rest3 with
                | c1 :: c2 :: a2 :: b2 :: d2 :: e2 :: rest5 =>
                  if c1 = '\\' ∧ c2 = 'u' then
                    match hexVal a2, hexVal b2, hexVal d2, hexVal e2 with
                    | some y1, some y2, some y3, some y4 =>
                      if 0xDC00 ≤ ((y1 * 16 + y2) * 16 + y3) * 16 + y4 ∧
                          ((y1 * 16 + y2) * 16 + y3) * 16 + y4 < 0xE000 then
                        match parseStringBody fuel rest5 with
                        | some p =>
                          some (Char.ofNat (0x10000 +
                            ((((x1 * 16 + x2) * 16 + x3) * 16 + x4) - 0xD800) * 0x400 +
                            ((((y1 * 16 + y2) * 16 + y3) * 16 + y4) - 0xDC00)) :: p.1, p.2)
                        | none => none
                      else none
                    | _, _, _, _ => none
                  else none
                | _ => none
              else none
            | _, _, _, _ => none
          | _ => none
        else
          match
            (if e = '"' then some '"'
             else if e = '\\' then some '\\'
             else if e = '/' then some '/'
             else if e = 'n' then some '\n'
             else if e = 'r' then some '\r'
             else if e = 't' then some '\t'
             else if e = 'b' then some '\x08'
             else if e = 'f' then some '\x0c'
             else none) with
          | some ch =>
            match parseStringBody fuel rest2 with
            | some p => some (ch :: p.1, p.2)
            | none => none
          | none => none
    else if c.toNat < 0x20 then none
    else
      match parseStringBody fuel rest with
      | some p => some (c :: p.1, p.2)
      | none => none

/-- Parse a JSON unsigned integer literal: leading digits with the JSON
leading-zero restriction, rejecting a following `.`/`e`/`E` (non-integer
numbers are outside the model, see `Json`). -/
def parseNat (l : List Char) : Option (Nat × List Char) :=
  let ds := l.takeWhile isDigitChar
  let rest := l.dropWhile isDigitChar
  if ds.isEmpty then none
  else if ds.head? = some '0' ∧ ds.length ≠ 1 then none
  else
    match rest.head? with
    | some c => if c = '.' ∨ c = 'e' ∨ c = 'E' then none else some (digitsVal ds, rest)
    | none => some (digitsVal ds, [])

/-- Parse a JSON integer literal with optional leading minus. -/
def parseNumber (l : List Char) : Option (Int × List Char) :=
  if l.head? = some '-' then
    match parseNat l.tail with
    | some p => some (-(p.1 : Int), p.2)
    | none => none
  else
    match parseNat l with
    | some p => some ((p.1 : Int), p.2)
    | none => none

mutual

/-- One JSON value, fuel-indexed recursive descent following Python's
`json.loads` grammar (with integers only). -/
def parseVal : Nat → List Char → Option (Json × List Char)
  | 0, _ => none
  | fuel + 1, l =>
    match skipWs l with
    | [] => none
    | c :: rest =>
      if c = 'n' then
        match rest with
        | 'u' :: 'l' :: 'l' :: r => some (.null, r)
        | _ => none
      else if c = 't' then
        match rest with
        | 'r' :: 'u' :: 'e' :: r => some (.bool true, r)
        | _ => none
      else if c = 'f' then
        match rest with
        | 'a' :: 'l' :: 's' :: 'e' :: r => some (.bool false, r)
        | _ => none
      else if c = '"' then
        match parseStringBody (rest.length + 1) rest with
        | some p => some (.str (String.mk p.1), p.2)
        | none => none
      else if c = '-' ∨ isDigitChar c then
        match parseNumber (c :: rest) with
        | some p => some (.num p.1, p.2)
        | none => none
      else if c = '[' then
        if (skipWs rest).head? = some ']' then some (.arr [], (skipWs rest).tail)
        else
          match parseElems fuel rest with
          | some p => some (.arr p.1, p.2)
          | none => none
      else if c = lbrace then
        if (skipWs rest).head? = some rbrace then some (.obj [], (skipWs rest).tail)
        else
          match parseMembers fuel rest with
          | some p => some (.obj p.1, p.2)
          | none => none
      else none

/-- One or more comma-separated array elements up to the closing
bracket. -/
def parseElems : Nat → List Char → Option (List Json × List Char)
  | 0, _ => none
  | fuel + 1, l =>
    match parseVal fuel l with
    | some (v, r) =>
      match skipWs r with
      | ',' :: r2 =>
        match parseElems fuel r2 with
        | some p => some (v :: p.1, p.2)
        | none => none
      | ']' :: r2 => some ([v], r2)
      | _ => none
    | none => none

/-- One or more `"key": value` object members up to the closing
brace. -/
def parseMembers : Nat → List Char → Option (List (String × Json) × List Char)
  | 0, _ => none
  | fuel + 1, l =>
    match skipWs l with
    | c :: rest =>
      if c = '"' then
        match parseStringBody (rest.length + 1) rest with
        | some (kcs, r) =>
          match skipWs r with
          | ':' :: r2 =>
            match parseVal fuel r2 with
            | some (v, r3) =>
              match skipWs r3 with
              | ',' :: r4 =>
                match parseMembers fuel r4 with
                | some p => some ((String.mk kcs, v) :: p.1, p.2)
                | none => none
              | r5 =>
                if r5.head? = some rbrace then some ([(String.mk kcs, v)], r5.tail)
                else none
            | none => none
          | _ => none
        | none => none
      else none
    | [] => none

end

/-- `json.loads(body)`: parse one value, then require only whitespace to
the end of the input (Python's "Extra data" check).  The fuel
`length + 1` dominates the nesting depth of any input the completeness
lemmas are applied to. -/
def loads (l : List Char) : Option Json :=
  match parseVal (l.length + 1) l with
  | some (j, rest) => if skipWs rest = [] then some j else none
  | none => none

mutual

/-- Fuel sufficient for `parseVal` on the serialization of a value. -/
def Jfuel : Json → Nat
  | .arr xs => 1 + elemsFuel xs
  | .obj kvs => 1 + membersFuel kvs
  | _ => 1

/-- Fuel sufficient for `parseElems` on serialized elements. -/
def elemsFuel : List Json → Nat
  | [] => 0
  | x :: xs => 1 + Jfuel x + elemsFuel xs

/-- Fuel sufficient for `parseMembers` on serialized members. -/
def membersFuel : List (String × Json) → Nat
  | [] => 0
  | (_, v) :: t => 1 + Jfuel v + membersFuel t

end

/-- `_read_message(reader)`'s outcome: `eofNone` models `return None`
(reached both at end-of-stream and when the `Content-Length` header is
missing), `msg` a decoded message, `exn` a raised exception
(`ValueError` from `int()`, read truncation, or
`json.JSONDecodeError`). -/
inductive ReadOutcome where
  | eofNone
  | msg (j : Json)
  | exn
deriving Repr

/-- `_read_message` (identically `UnixSocketTransport.read_message`)
over the modelled stream, paired with the unconsumed rest of the
stream: read headers to the blank line (end-of-stream gives `None`),
look up `Content-Length` (absence gives `None` as well), parse it with
`int()`, read exactly that many body bytes and decode them with
`json.loads`. -/
def read_message (stream : List Char) : ReadOutcome × List Char :=
  match readHeaders stream [] with
  | none => (.eofNone, [])
  | some (headers, rest) =>
    match hdrGet headers "Content-Length" with
    | none => (.eofNone, rest)
    | some v =>
      match pyInt v with
      | none => (.exn, rest)
      | some n =>
        if n < 0 then (.exn, rest)
        else
          match takeBytes n.toNat rest with
          | none => (.exn, [])
          | some (body, rest2) =>
            match loads body with
            | none => (.exn, rest2)
            | some j => (.msg j, rest2)

/-- An outbound request message body (§6), in the field order
`_call` / `_call_streaming` build it. -/
def requestMsg (id : Int) (method : String) (params : Jobj) : Json :=
  .obj [("jsonrpc", .str "2.0"), ("method", .str method), ("id", .num id),
    ("params", .obj params)]

/-- A result response message body (§6). -/
def responseResultMsg (id : Int) (result : Json) : Json :=
  .obj [("jsonrpc", .str "2.0"), ("id", .num id), ("result", result)]

/-- An error response message body (§6). -/
def responseErrorMsg (id code : Int) (message : String) : Json :=
  .obj [("jsonrpc", .str "2.0"), ("id", .num id),
    ("error", .obj [("code", .num code), ("message", .str message)])]

/-- A notification message body (§6). -/
def notificationMsg (method : String) (params : Jobj) : Json :=
  .obj [("jsonrpc", .str "2.0"), ("method", .str method), ("params", .obj params)]

/-- The first character of the remainder, if any, cannot extend a
number literal (true of every continuation `json.dumps` produces after
a number). -/
def numStop (l : List Char) : Bool :=
  match l.head? with
  | none => true
  | some c => !(isDigitChar c) && c ≠ '.' && c ≠ 'e' && c ≠ 'E'


/-! ## Theorems -/

/-- Helper: ids assigned from counter `st` are `st+1, st+2, ...`. -/
theorem clientCallIds_eq_range (st : Nat) (calls : List (CallKind × List Jobj)) :
    clientCallIds st calls = (List.range calls.length).map (· + (st + 1)) := by
  induction calls generalizing st with
  | nil => rfl
  | cons c rest ih =>
    simp only [clientCallIds, next_id, List.length_cons, List.range_succ_eq_map,
      List.map_cons, List.map_map, ih (st + 1), List.cons.injEq]
    constructor
    · omega
    · apply List.map_congr_left
      intro a _
      simp only [Function.comp_apply, Nat.succ_eq_add_one]
      omega

/-- Claim C3: for every sequence of `n` calls (unary or streaming) on one
client instance, whatever inbound messages (notifications included) each
call's read loop consumes, the assigned request identifiers are exactly
`1, 2, ..., n` in order. -/
theorem c3_request_ids_are_one_to_n (calls : List (CallKind × List Jobj)) :
    clientCallIds 0 calls = (List.range calls.length).map (· + 1) :=
  clientCallIds_eq_range 0 calls

/-- Claim C4 (counterexample): the operation sequence
`[lock_spec, set_mode BUILD, unlock_spec]` — each step succeeding — leads
from the initial state to a reachable state with `mode = BUILD` and
`spec_locked = false`, so the claimed implication fails at an observable
point after `set_mode` returned successfully. -/
theorem c4_counterexample :
    (runOps initialSession [.lock_spec, .set_mode .BUILD, .unlock_spec]).mode = Mode.BUILD ∧
    (runOps initialSession [.lock_spec, .set_mode .BUILD, .unlock_spec]).spec_locked = false :=
  ⟨rfl, rfl⟩

/-- Helper: every operation except `unlock_spec` preserves the invariant
`mode = BUILD → spec_locked`. -/
theorem applyOp_preserves_inv (s : MaudeSession) (op : SessionOp)
    (hs : s.mode = Mode.BUILD → s.spec_locked = true)
    (hop : op ≠ SessionOp.unlock_spec) :
    (applyOp s op).mode = Mode.BUILD → (applyOp s op).spec_locked = true := by
  cases op with
  | add_message r c => exact hs
  | load_template n c => exact hs
  | clear_template => exact hs
  | lock_spec => exact fun _ => rfl
  | unlock_spec => exact absurd rfl hop
  | set_mode m =>
    cases m with
    | PLAN => simp [applyOp, MaudeSession.set_mode]
    | BUILD =>
      by_cases h : s.spec_locked = false
      · simpa [applyOp, MaudeSession.set_mode, h] using hs
      · simp only [Bool.not_eq_false] at h
        simp [applyOp, MaudeSession.set_mode, h]

/-- Claim C4 (amended): in every session state reachable by a sequence
of session operations *not containing* `unlock_spec` from the initial
state, `mode = BUILD` implies `spec_locked = true`.  (The unamended
claim fails: `unlock_spec` clears the lock without any mode guard, see
`c4_counterexample`.) -/
theorem c4_build_implies_locked_without_unlock (ops : List SessionOp)
    (h : SessionOp.unlock_spec ∉ ops) :
    (runOps initialSession ops).mode = Mode.BUILD →
      (runOps initialSession ops).spec_locked = true := by
  suffices H : ∀ (s : MaudeSession), (s.mode = Mode.BUILD → s.spec_locked = true) →
      (runOps s ops).mode = Mode.BUILD → (runOps s ops).spec_locked = true by
    exact H initialSession (by intro h'; cases h')
  induction ops with
  | nil => exact fun s hs => hs
  | cons op rest ih =>
    intro s hs
    have hop : op ≠ SessionOp.unlock_spec := fun he => h (he ▸ List.mem_cons_self op rest)
    have hrest : SessionOp.unlock_spec ∉ rest := fun hm => h (List.mem_cons_of_mem op hm)
    have := ih hrest (applyOp s op) (applyOp_preserves_inv s op hs hop)
    simpa [runOps] using this

/-- Witness for `c4_build_implies_locked_without_unlock` at the concrete
sequence `[lock_spec, set_mode BUILD]`. -/
theorem c4_build_implies_locked_without_unlock_witness :
    (runOps initialSession [SessionOp.lock_spec, .set_mode Mode.BUILD]).spec_locked = true :=
  c4_build_implies_locked_without_unlock [SessionOp.lock_spec, .set_mode Mode.BUILD]
    (by decide) (by decide)

/-- Claim C5: `set_mode BUILD` fails with the guard violation exactly
when `spec_locked` is false, succeeds setting the mode when the spec is
locked, and `set_mode PLAN` always succeeds, from any state. -/
theorem c5_set_mode_guard (s : MaudeSession) :
    (s.spec_locked = false →
      s.set_mode Mode.BUILD = Except.error "Cannot enter BUILD mode without a locked spec") ∧
    (s.spec_locked = true →
      s.set_mode Mode.BUILD = Except.ok { s with mode := Mode.BUILD }) ∧
    s.set_mode Mode.PLAN = Except.ok { s with mode := Mode.PLAN } := by
  refine ⟨fun h => ?_, fun h => ?_, ?_⟩ <;> simp [MaudeSession.set_mode, *]

/-- Witness for `c5_set_mode_guard` at concrete unlocked and locked
states. -/
theorem c5_set_mode_guard_witness :
    initialSession.set_mode Mode.BUILD =
      Except.error "Cannot enter BUILD mode without a locked spec" ∧
    ({ initialSession with spec_locked := true } : MaudeSession).set_mode Mode.BUILD =
      Except.ok { { initialSession with spec_locked := true } with mode := Mode.BUILD } ∧
    initialSession.set_mode Mode.PLAN = Except.ok { initialSession with mode := Mode.PLAN } :=
  ⟨(c5_set_mode_guard initialSession).1 rfl,
   (c5_set_mode_guard { initialSession with spec_locked := true }).2.1 rfl,
   (c5_set_mode_guard initialSession).2.2⟩

/-- Claim C6: what the committed classifier actually does at the claim's
inputs.  `"plan build a REST API"` and `"switch"` behave as claimed, but
`"plan architecture"` is classified as freeform `PLAN` carrying the full
text — the committed `IntentKind` has no plan-template kind at all,
although `tests/test_intents.py` asserts `PLAN_TEMPLATE` with payload
`"architecture"` and `app.py` dispatches on `IntentKind.PLAN_TEMPLATE`. -/
theorem c6_classifier_at_claimed_inputs :
    parse_intent "plan architecture" = ⟨IntentKind.PLAN, "plan architecture"⟩ ∧
    parse_intent "plan build a REST API" = ⟨IntentKind.PLAN, "plan build a REST API"⟩ ∧
    parse_intent "switch" = ⟨IntentKind.CHAT, "switch"⟩ := by
  refine ⟨?_, ?_, ?_⟩ <;> decide

/-- Claim C7: the committed classifier sends every session-reference
command to freeform `CHAT` — it has no `SWITCH_SESSION` / `DELETE_SESSION`
kinds and no session patterns, although `tests/test_intents.py` asserts
the structured kinds with the reference as payload and `app.py`
dispatches on them. -/
theorem c7_classifier_session_commands_fall_to_chat :
    parse_intent "switch abc123" = ⟨IntentKind.CHAT, "switch abc123"⟩ ∧
    parse_intent "session abc123" = ⟨IntentKind.CHAT, "session abc123"⟩ ∧
    parse_intent "resume abc123" = ⟨IntentKind.CHAT, "resume abc123"⟩ ∧
    parse_intent "delete session abc123" = ⟨IntentKind.CHAT, "delete session abc123"⟩ ∧
    parse_intent "rm session abc123" = ⟨IntentKind.CHAT, "rm session abc123"⟩ := by
  refine ⟨?_, ?_, ?_, ?_, ?_⟩ <;> decide

/-- Claim C10: on a session with a non-empty draft, the lock-spec
handler locks locally before the remote constraint submission (the event
trace is `[localLock, remoteSubmit]` in that order), and the lock is not
rolled back whatever the remote outcome — in particular when the remote
call fails. -/
theorem c10_lock_survives_remote_failure (s : MaudeSession) (remote : RemoteOutcome)
    (h : s.spec_draft ≠ "") :
    (handle_lock_spec s remote).1.spec_locked = true ∧
    (handle_lock_spec s remote).2 = [LockEvent.localLock, LockEvent.remoteSubmit] := by
  cases remote <;> simp [handle_lock_spec, h, MaudeSession.lock_spec]

/-- Witness for `c10_lock_survives_remote_failure`: a failing remote
submission on a session with draft text still leaves the spec locked. -/
theorem c10_lock_survives_remote_failure_witness :
    (handle_lock_spec { initialSession with spec_draft := "build X\n" }
        RemoteOutcome.failed).1.spec_locked = true ∧
    (handle_lock_spec { initialSession with spec_draft := "build X\n" }
        RemoteOutcome.failed).2 = [LockEvent.localLock, LockEvent.remoteSubmit] :=
  c10_lock_survives_remote_failure _ _ (by decide)

/-- Claim C1: for inbound traffic consisting of well-formed
notifications followed by a terminal response whose id matches the
request, the streaming call yields exactly the truthy content fields of
the notifications whose method equals the filter, in arrival order —
nothing for any other notification, and never the terminal response's
own payload. -/
theorem c1_stream_yields_exactly (request_id : Int) (nm : String)
    (notifs : List Jobj) (resp : Jobj)
    (hn : ∀ m ∈ notifs, WfNotification m)
    (hr : MatchesId resp request_id) :
    (streamLoop request_id nm (notifs ++ [resp])).1 = notifs.filterMap (notifYield nm) := by
  induction notifs with
  | nil =>
    obtain ⟨v, hv, hpy⟩ := hr
    simp only [List.nil_append, List.filterMap_nil, streamLoop, hv, hpy, if_true]
    cases herr : dget resp "error" with
    | none => rfl
    | some e => cases e <;> simp
  | cons m rest ih =>
    obtain ⟨hid, hparams⟩ := hn m (List.mem_cons_self m rest)
    have ihr := ih (fun x hx => hn x (List.mem_cons_of_mem m hx))
    simp only [List.cons_append, streamLoop, hid, List.filterMap_cons, notifYield]
    by_cases hmeth : pyEqStr ((dget m "method").getD .null) nm = true
    · simp only [hmeth, if_true]
      cases hp : dget m "params" with
      | none => simpa using ihr
      | some p =>
        obtain ⟨kvs, rfl⟩ := hparams p hp
        by_cases ht : ((dget kvs "content").getD (.str "")).truthy = true
        · simp only [ht, if_true]
          simpa using ihr
        · simp only [Bool.not_eq_true] at ht
          simp only [ht, if_false]
          simpa using ihr
    · simp only [Bool.not_eq_true] at hmeth
      simp only [hmeth, if_false]
      simpa using ihr


/-- Witness for `c1_stream_yields_exactly`: one matching notification
with content, one non-matching notification, one matching notification
with empty content, then the terminal response. -/
theorem c1_stream_yields_exactly_witness :
    (streamLoop 1 "chat.delta"
      ([[("jsonrpc", Json.str "2.0"), ("method", Json.str "chat.delta"),
         ("params", Json.obj [("content", Json.str "Hello")])],
        [("jsonrpc", Json.str "2.0"), ("method", Json.str "other.event"),
         ("params", Json.obj [("content", Json.str "nope")])],
        [("jsonrpc", Json.str "2.0"), ("method", Json.str "chat.delta"),
         ("params", Json.obj [("content", Json.str "")])]] ++
       [[("jsonrpc", Json.str "2.0"), ("id", Json.num 1),
         ("result", Json.obj [])]])).1 = [Json.str "Hello"] := by
  have h := c1_stream_yields_exactly 1 "chat.delta"
    [[("jsonrpc", Json.str "2.0"), ("method", Json.str "chat.delta"),
      ("params", Json.obj [("content", Json.str "Hello")])],
     [("jsonrpc", Json.str "2.0"), ("method", Json.str "other.event"),
      ("params", Json.obj [("content", Json.str "nope")])],
     [("jsonrpc", Json.str "2.0"), ("method", Json.str "chat.delta"),
      ("params", Json.obj [("content", Json.str "")])]]
    [("jsonrpc", Json.str "2.0"), ("id", Json.num 1), ("result", Json.obj [])]
    (by
      intro m hm
      simp only [List.mem_cons, List.not_mem_nil, or_false] at hm
      rcases hm with rfl | rfl | rfl
      · exact ⟨rfl, fun p hp => by cases hp; exact ⟨_, rfl⟩⟩
      · exact ⟨rfl, fun p hp => by cases hp; exact ⟨_, rfl⟩⟩
      · exact ⟨rfl, fun p hp => by cases hp; exact ⟨_, rfl⟩⟩)
    ⟨Json.num 1, rfl, rfl⟩
  rw [h]
  rfl

/-- Claim C8: when the transport reaches end-of-stream before any
message with the matching identifier, the unary call fails with a
connection error (it terminates by construction and does not return a
result), and the streaming call's loop likewise ends with a connection
error; for the streaming loop, id-less messages must carry well-formed
params (else the code raises `AttributeError` instead). -/
theorem c8_eof_before_match_is_conn_error (request_id : Int) (nm : String)
    (msgs : List Jobj)
    (hno : ∀ m ∈ msgs, ¬ MatchesId m request_id)
    (hwf : ∀ m ∈ msgs, dget m "id" = none → ParamsWf m) :
    callLoop request_id msgs = CallResult.connError ∧
    (streamLoop request_id nm msgs).2 = StreamEnd.connError := by
  induction msgs with
  | nil => exact ⟨rfl, rfl⟩
  | cons m rest ih =>
    have hmn := hno m (List.mem_cons_self m rest)
    have ihr := ih (fun x hx => hno x (List.mem_cons_of_mem m hx))
      (fun x hx => hwf x (List.mem_cons_of_mem m hx))
    cases hm : dget m "id" with
    | none =>
      refine ⟨by simpa [callLoop, hm] using ihr.1, ?_⟩
      simp only [streamLoop, hm]
      by_cases hmeth : pyEqStr ((dget m "method").getD .null) nm = true
      · simp only [hmeth, if_true]
        cases hp : dget m "params" with
        | none => simpa using ihr.2
        | some p =>
          obtain ⟨kvs, rfl⟩ := hwf m (List.mem_cons_self m rest) hm p hp
          by_cases ht : ((dget kvs "content").getD (.str "")).truthy = true
          · simp only [ht, if_true]
            simpa using ihr.2
          · simp only [Bool.not_eq_true] at ht
            simp only [ht, if_false]
            simpa using ihr.2
      · simp only [Bool.not_eq_true] at hmeth
        simp only [hmeth, if_false]
        simpa using ihr.2
    | some v =>
      have hpy : pyEqInt v request_id = false := by
        by_contra hc
        simp only [Bool.not_eq_false] at hc
        exact hmn ⟨v, hm, hc⟩
      exact ⟨by simpa [callLoop, hm, hpy] using ihr.1,
        by simpa [streamLoop, hm, hpy] using ihr.2⟩

/-- Witness for `c8_eof_before_match_is_conn_error`: a notification and
a stale response with a different id, then end-of-stream. -/
theorem c8_eof_before_match_is_conn_error_witness :
    callLoop 7 [[("jsonrpc", Json.str "2.0"), ("method", Json.str "chat.delta"),
                 ("params", Json.obj [("content", Json.str "Hi")])],
                [("jsonrpc", Json.str "2.0"), ("id", Json.num 3),
                 ("result", Json.null)]] = CallResult.connError ∧
    (streamLoop 7 "chat.delta"
      [[("jsonrpc", Json.str "2.0"), ("method", Json.str "chat.delta"),
        ("params", Json.obj [("content", Json.str "Hi")])],
       [("jsonrpc", Json.str "2.0"), ("id", Json.num 3),
        ("result", Json.null)]]).2 = StreamEnd.connError := by
  refine c8_eof_before_match_is_conn_error 7 "chat.delta" _ ?_ ?_
  · intro m hm
    simp only [List.mem_cons, List.not_mem_nil, or_false] at hm
    rcases hm with rfl | rfl
    · rintro ⟨v, hv, -⟩
      cases hv
    · rintro ⟨v, hv, hpy⟩
      cases hv
      cases hpy
  · intro m hm
    simp only [List.mem_cons, List.not_mem_nil, or_false] at hm
    rcases hm with rfl | rfl
    · intro _ p hp
      cases hp
      exact ⟨_, rfl⟩
    · intro h
      cases h

/-! ### Character and decimal digit lemmas -/

/-- `Char.ofNat` on a valid scalar keeps its value. -/
theorem toNat_ofNat_valid (n : Nat) (h : n.isValidChar) : (Char.ofNat n).toNat = n := by
  simp only [Char.ofNat, h, dite_true, Char.ofNatAux, Char.toNat]
  rfl

theorem decDigit_toNat (d : Nat) (h : d < 10) : (decDigit d).toNat = 48 + d :=
  toNat_ofNat_valid _ (Or.inl (by omega))

theorem isDigitChar_decDigit (d : Nat) (h : d < 10) : isDigitChar (decDigit d) = true := by
  simp only [isDigitChar, decDigit_toNat d h, Bool.and_eq_true, decide_eq_true_eq]
  omega

theorem natToRevDigits_pos (n : Nat) (h : 0 < n) :
    natToRevDigits n = decDigit (n % 10) :: natToRevDigits (n / 10) := by
  obtain ⟨m, rfl⟩ := Nat.exists_eq_succ_of_ne_zero (Nat.pos_iff_ne_zero.mp h)
  rw [natToRevDigits]

theorem natToRevDigits_all_digits (n : Nat) :
    ∀ c ∈ natToRevDigits n, isDigitChar c = true := by
  induction n using Nat.strong_induction_on with
  | _ n ih =>
    rcases Nat.eq_zero_or_pos n with rfl | hp
    · simp [natToRevDigits]
    · rw [natToRevDigits_pos n hp]
      intro c hc
      rcases List.mem_cons.mp hc with rfl | hc
      · exact isDigitChar_decDigit _ (Nat.mod_lt _ (by omega))
      · exact ih (n / 10) (Nat.div_lt_self hp (by omega)) c hc

theorem natToRevDigits_ne_nil (n : Nat) (h : 0 < n) : natToRevDigits n ≠ [] := by
  rw [natToRevDigits_pos n h]
  simp

theorem digitsVal_append_digit (l : List Char) (c : Char) :
    digitsVal (l ++ [c]) = 10 * digitsVal l + (c.toNat - 48) := by
  simp [digitsVal, List.foldl_append]

theorem digitsVal_revDigits (n : Nat) :
    digitsVal (natToRevDigits n).reverse = n := by
  induction n using Nat.strong_induction_on with
  | _ n ih =>
    rcases Nat.eq_zero_or_pos n with rfl | hp
    · simp [natToRevDigits, digitsVal]
    · rw [natToRevDigits_pos n hp, List.reverse_cons, digitsVal_append_digit,
        ih (n / 10) (Nat.div_lt_self hp (by omega)),
        decDigit_toNat _ (Nat.mod_lt _ (by omega))]
      omega

theorem digitsVal_natDump (n : Nat) : digitsVal (natDump n) = n := by
  rcases Nat.eq_zero_or_pos n with rfl | hp
  · decide
  · simp only [natDump, Nat.pos_iff_ne_zero.mp hp, if_false]
    exact digitsVal_revDigits n

theorem natDump_all_digits (n : Nat) : ∀ c ∈ natDump n, isDigitChar c = true := by
  rcases Nat.eq_zero_or_pos n with rfl | hp
  · decide
  · simp only [natDump, Nat.pos_iff_ne_zero.mp hp, if_false]
    intro c hc
    exact natToRevDigits_all_digits n c (List.mem_reverse.mp hc)

theorem natDump_ne_nil (n : Nat) : natDump n ≠ [] := by
  rcases Nat.eq_zero_or_pos n with rfl | hp
  · decide
  · simp only [natDump, Nat.pos_iff_ne_zero.mp hp, if_false]
    simpa using natToRevDigits_ne_nil n hp

theorem natDump_head_digit (n : Nat) :
    ∃ c t, natDump n = c :: t ∧ isDigitChar c = true := by
  cases hD : natDump n with
  | nil => exact absurd hD (natDump_ne_nil n)
  | cons c t =>
    exact ⟨c, t, rfl, natDump_all_digits n c (hD ▸ List.mem_cons_self c t)⟩

theorem natDumpRev_head_ne_zero (n : Nat) (h : 0 < n) :
    ((natToRevDigits n).reverse).head? ≠ some '0' := by
  induction n using Nat.strong_induction_on with
  | _ n ih =>
    rw [natToRevDigits_pos n h, List.reverse_cons]
    rcases Nat.eq_zero_or_pos (n / 10) with hz | hp10
    · rw [hz]
      simp only [natToRevDigits, List.reverse_nil, List.nil_append, List.head?_cons,
        ne_eq, Option.some.injEq]
      intro heq
      have := congrArg Char.toNat heq
      rw [decDigit_toNat _ (by omega)] at this
      have h0 : ('0' : Char).toNat = 48 := by decide
      rw [h0] at this
      omega
    · have hne : (natToRevDigits (n / 10)).reverse ≠ [] := by
        simpa using natToRevDigits_ne_nil _ hp10
      have happ : ((natToRevDigits (n / 10)).reverse ++ [decDigit (n % 10)]).head? =
          ((natToRevDigits (n / 10)).reverse).head? := by
        cases hC : (natToRevDigits (n / 10)).reverse with
        | nil => exact absurd hC hne
        | cons a b => rfl
      rw [happ]
      exact ih (n / 10) (Nat.div_lt_self h (by omega)) hp10

theorem natDump_head_zero_imp (n : Nat) :
    (natDump n).head? = some '0' → (natDump n).length = 1 := by
  rcases Nat.eq_zero_or_pos n with rfl | hp
  · intro _; rfl
  · intro hc
    exact absurd (by simpa [natDump, Nat.pos_iff_ne_zero.mp hp] using hc)
      (natDumpRev_head_ne_zero n hp)

/-! ### Number literal round trip -/

theorem takeWhile_append_all {α : Type} {p : α → Bool} {l r : List α}
    (h : ∀ c ∈ l, p c = true) : (l ++ r).takeWhile p = l ++ r.takeWhile p := by
  induction l with
  | nil => simp
  | cons c t ih =>
    simp [List.takeWhile_cons, h c (List.mem_cons_self c t),
      ih fun x hx => h x (List.mem_cons_of_mem c hx)]

theorem dropWhile_append_all {α : Type} {p : α → Bool} {l r : List α}
    (h : ∀ c ∈ l, p c = true) : (l ++ r).dropWhile p = r.dropWhile p := by
  induction l with
  | nil => simp
  | cons c t ih =>
    simp [List.dropWhile_cons, h c (List.mem_cons_self c t),
      ih fun x hx => h x (List.mem_cons_of_mem c hx)]

theorem numStop_head (r : List Char) (c : Char) (h : numStop r = true)
    (hc : r.head? = some c) :
    isDigitChar c = false ∧ c ≠ '.' ∧ c ≠ 'e' ∧ c ≠ 'E' := by
  cases r with
  | nil => cases hc
  | cons a t =>
    cases hc
    simp only [numStop, List.head?_cons, Bool.and_eq_true, Bool.not_eq_true',
      decide_eq_true_eq] at h
    exact ⟨h.1.1.1, h.1.1.2, h.1.2, h.2⟩

theorem takeWhile_numStop {r : List Char} (h : numStop r = true) :
    r.takeWhile isDigitChar = [] ∧ r.dropWhile isDigitChar = r := by
  cases r with
  | nil => simp
  | cons c t =>
    have := numStop_head (c :: t) c h rfl
    simp [List.takeWhile_cons, List.dropWhile_cons, this.1]

theorem parseNat_natDump (n : Nat) (rest : List Char) (h : numStop rest = true) :
    parseNat (natDump n ++ rest) = some (n, rest) := by
  have htw : (natDump n ++ rest).takeWhile isDigitChar = natDump n := by
    rw [takeWhile_append_all (natDump_all_digits n), (takeWhile_numStop h).1,
      List.append_nil]
  have hdw : (natDump n ++ rest).dropWhile isDigitChar = rest := by
    rw [dropWhile_append_all (natDump_all_digits n), (takeWhile_numStop h).2]
  have hguard : ¬((natDump n).head? = some '0' ∧ (natDump n).length ≠ 1) := by
    rintro ⟨h1, h2⟩
    exact h2 (natDump_head_zero_imp n h1)
  simp only [parseNat, htw, hdw, List.isEmpty_iff, natDump_ne_nil n, if_false,
    hguard, digitsVal_natDump]
  cases hr : rest.head? with
  | none =>
    cases rest with
    | nil => rfl
    | cons a t => cases hr
  | some c =>
    have hs := numStop_head rest c h hr
    simp [hs.2.1, hs.2.2.1, hs.2.2.2]

theorem digit_head_facts (c : Char) (h : isDigitChar c = true) :
    c ≠ '-' ∧ c ≠ 'n' ∧ c ≠ 't' ∧ c ≠ 'f' ∧ c ≠ '"' ∧ c ≠ '[' ∧ c ≠ ']' ∧
      c ≠ lbrace ∧ c ≠ rbrace ∧ isJsonWs c = false := by
  simp only [isDigitChar, Bool.and_eq_true, decide_eq_true_eq] at h
  refine ⟨?_, ?_, ?_, ?_, ?_, ?_, ?_, ?_, ?_, ?_⟩
  all_goals first
    | (intro he
       subst he
       revert h
       decide)
    | (simp only [isJsonWs]
       have h1 : c ≠ ' ' := by intro he; subst he; revert h; decide
       have h2 : c ≠ '\t' := by intro he; subst he; revert h; decide
       have h3 : c ≠ '\n' := by intro he; subst he; revert h; decide
       have h4 : c ≠ '\r' := by intro he; subst he; revert h; decide
       simp [h1, h2, h3, h4])

theorem intDump_head (n : Int) :
    ∃ c t, intDump n = c :: t ∧ (c = '-' ∨ isDigitChar c = true) := by
  by_cases hn : n < 0
  · exact ⟨'-', natDump n.natAbs, by simp [intDump, hn], Or.inl rfl⟩
  · obtain ⟨c, t, hct, hd⟩ := natDump_head_digit n.natAbs
    exact ⟨c, t, by simp [intDump, hn, hct], Or.inr hd⟩

theorem parseNumber_intDump (n : Int) (rest : List Char) (h : numStop rest = true) :
    parseNumber (intDump n ++ rest) = some (n, rest) := by
  by_cases hn : n < 0
  · simp only [intDump, hn, if_true, List.cons_append]
    simp only [parseNumber, List.head?_cons, List.tail_cons, if_true,
      parseNat_natDump n.natAbs rest h]
    congr 1
    have : ((n.natAbs : Int)) = -n := Int.ofNat_natAbs_of_nonpos (le_of_lt hn)
    simp [this]
  · obtain ⟨c, t, hct, hd⟩ := natDump_head_digit n.natAbs
    have hcm : c ≠ '-' := by
      have := digit_head_facts c hd
      exact this.1
    simp only [intDump, hn, if_false]
    rw [parseNumber]
    rw [hct, List.cons_append, List.head?_cons]
    simp only [Option.some.injEq, hcm, if_false]
    rw [← List.cons_append, ← hct, parseNat_natDump n.natAbs rest h]
    have : ((n.natAbs : Int)) = n := Int.natAbs_of_nonneg (not_lt.mp hn) ▸ rfl
    simp [Int.natAbs_of_nonneg (not_lt.mp hn), not_lt.mp hn]

theorem hexVal_hexDigit_fin : ∀ d : Fin 16, hexVal (hexDigit d.val) = some d.val := by decide

theorem hexVal_hexDigit (d : Nat) (h : d < 16) : hexVal (hexDigit d) = some d :=
  hexVal_hexDigit_fin ⟨d, h⟩

theorem char_valid_toNat (c : Char) :
    c.toNat < 0xD800 ∨ (0xDFFF < c.toNat ∧ c.toNat < 0x110000) := c.valid

/-- Reassembling the four hex digits emitted by `hex4` recovers the
escaped code unit. -/
theorem hexQuad_val (n : Nat) (hn : n < 65536) :
    ((n / 4096 % 16 * 16 + n / 256 % 16) * 16 + n / 16 % 16) * 16 + n % 16 = n := by
  omega

/-- One-step evaluation of `parseStringBody` at a `\u` escape. -/
theorem parseStringBody_unicode_step (f : Nat) (h1 h2 h3 h4 : Char) (R : List Char) :
    parseStringBody (f + 1) ('\\' :: 'u' :: h1 :: h2 :: h3 :: h4 :: R) =
      (match hexVal h1, hexVal h2, hexVal h3, hexVal h4 with
       | some x1, some x2, some x3, some x4 =>
         if ((x1 * 16 + x2) * 16 + x3) * 16 + x4 < 0xD800 ∨
             0xE000 ≤ ((x1 * 16 + x2) * 16 + x3) * 16 + x4 then
           (match parseStringBody f R with
            | some p => some (Char.ofNat (((x1 * 16 + x2) * 16 + x3) * 16 + x4) :: p.1, p.2)
            | none => none)
         else if ((x1 * 16 + x2) * 16 + x3) * 16 + x4 < 0xDC00 then
           (match R with
            | c1 :: c2 :: a2 :: b2 :: d2 :: e2 :: rest5 =>
              if c1 = '\\' ∧ c2 = 'u' then
                (match hexVal a2, hexVal b2, hexVal d2, hexVal e2 with
                 | some y1, some y2, some y3, some y4 =>
                   if 0xDC00 ≤ ((y1 * 16 + y2) * 16 + y3) * 16 + y4 ∧
                       ((y1 * 16 + y2) * 16 + y3) * 16 + y4 < 0xE000 then
                     (match parseStringBody f rest5 with
                      | some p =>
                        some (Char.ofNat (0x10000 +
                          ((((x1 * 16 + x2) * 16 + x3) * 16 + x4) - 0xD800) * 0x400 +
                          ((((y1 * 16 + y2) * 16 + y3) * 16 + y4) - 0xDC00)) :: p.1, p.2)
                      | none => none)
                   else none
                 | _, _, _, _ => none)
              else none
            | _ => none)
         else none
       | _, _, _, _ => none) := rfl

theorem parseStringBody_complete (s : List Char) : ∀ (fuel : Nat) (rest : List Char),
    s.length + 1 ≤ fuel →
    parseStringBody fuel ((s.map escChar).flatten ++ ('"' :: rest)) = some (s, rest) := by
  induction s with
  | nil =>
    intro fuel rest hf
    obtain ⟨f, rfl⟩ := Nat.exists_eq_succ_of_ne_zero (by omega : fuel ≠ 0)
    simp only [List.map_nil, List.flatten_nil, List.nil_append]
    rfl
  | cons c t ih =>
    intro fuel rest hf
    obtain ⟨f, rfl⟩ := Nat.exists_eq_succ_of_ne_zero (by omega : fuel ≠ 0)
    simp only [List.length_cons] at hf
    have hft : t.length + 1 ≤ f := by omega
    simp only [List.map_cons, List.flatten_cons, List.append_assoc]
    by_cases h1 : c = '"'
    · subst h1
      show (match parseStringBody f ((t.map escChar).flatten ++ '"' :: rest) with
            | some p => some ('"' :: p.1, p.2)
            | none => none) = some ('"' :: t, rest)
      rw [ih f rest hft]
    by_cases h2 : c = '\\'
    · subst h2
      show (match parseStringBody f ((t.map escChar).flatten ++ '"' :: rest) with
            | some p => some ('\\' :: p.1, p.2)
            | none => none) = some ('\\' :: t, rest)
      rw [ih f rest hft]
    by_cases h3 : c = '\n'
    · subst h3
      show (match parseStringBody f ((t.map escChar).flatten ++ '"' :: rest) with
            | some p => some ('\n' :: p.1, p.2)
            | none => none) = some ('\n' :: t, rest)
      rw [ih f rest hft]
    by_cases h4 : c = '\r'
    · subst h4
      show (match parseStringBody f ((t.map escChar).flatten ++ '"' :: rest) with
            | some p => some ('\r' :: p.1, p.2)
            | none => none) = some ('\r' :: t, rest)
      rw [ih f rest hft]
    by_cases h5 : c = '\t'
    · subst h5
      show (match parseStringBody f ((t.map escChar).flatten ++ '"' :: rest) with
            | some p => some ('\t' :: p.1, p.2)
            | none => none) = some ('\t' :: t, rest)
      rw [ih f rest hft]
    by_cases h6 : c = '\x08'
    · subst h6
      show (match parseStringBody f ((t.map escChar).flatten ++ '"' :: rest) with
            | some p => some ('\x08' :: p.1, p.2)
            | none => none) = some ('\x08' :: t, rest)
      rw [ih f rest hft]
    by_cases h7 : c = '\x0c'
    · subst h7
      show (match parseStringBody f ((t.map escChar).flatten ++ '"' :: rest) with
            | some p => some ('\x0c' :: p.1, p.2)
            | none => none) = some ('\x0c' :: t, rest)
      rw [ih f rest hft]
    by_cases hp : 0x20 ≤ c.toNat ∧ c.toNat ≤ 0x7E
    · have he : escChar c = [c] := by
        simp only [escChar, h1, h2, h3, h4, h5, h6, h7, if_false]
        rw [if_pos hp]
      rw [he, List.singleton_append]
      simp only [parseStringBody, h1, h2, if_false]
      rw [if_neg (by omega : ¬ c.toNat < 0x20)]
      rw [ih f rest hft]
    by_cases hbmp : c.toNat < 0x10000
    · have he : escChar c = '\\' :: 'u' :: hex4 c.toNat := by
        simp only [escChar, h1, h2, h3, h4, h5, h6, h7, if_false]
        rw [if_neg hp, if_pos hbmp]
      rw [he]
      simp only [hex4, List.cons_append, List.nil_append]
      rw [parseStringBody_unicode_step]
      rw [hexVal_hexDigit _ (by omega), hexVal_hexDigit _ (by omega),
        hexVal_hexDigit _ (by omega), hexVal_hexDigit _ (by omega)]
      simp only [hexQuad_val c.toNat hbmp]
      rw [if_pos (by
        rcases char_valid_toNat c with h | h
        · exact Or.inl (by omega)
        · exact Or.inr (by omega))]
      rw [ih f rest hft, Char.ofNat_toNat]
    · have he : escChar c =
          ('\\' :: 'u' :: hex4 (0xD800 + (c.toNat - 0x10000) / 0x400)) ++
            ('\\' :: 'u' :: hex4 (0xDC00 + (c.toNat - 0x10000) % 0x400)) := by
        simp only [escChar, h1, h2, h3, h4, h5, h6, h7, if_false]
        rw [if_neg hp, if_neg hbmp]
      have hcv : c.toNat < 0x110000 := by
        rcases char_valid_toNat c with h | h
        · omega
        · omega
      rw [he]
      simp only [hex4, List.cons_append, List.nil_append]
      rw [parseStringBody_unicode_step]
      rw [hexVal_hexDigit _ (by omega), hexVal_hexDigit _ (by omega),
        hexVal_hexDigit _ (by omega), hexVal_hexDigit _ (by omega)]
      simp only [hexQuad_val (55296 + (c.toNat - 65536) / 1024) (by omega)]
      rw [if_neg (by omega : ¬ (55296 + (c.toNat - 65536) / 1024 < 55296 ∨
        57344 ≤ 55296 + (c.toNat - 65536) / 1024))]
      rw [if_pos (by omega : 55296 + (c.toNat - 65536) / 1024 < 56320)]
      rw [if_pos (⟨trivial, trivial⟩ : True ∧ True)]
      rw [hexVal_hexDigit _ (by omega), hexVal_hexDigit _ (by omega),
        hexVal_hexDigit _ (by omega), hexVal_hexDigit _ (by omega)]
      simp only [hexQuad_val (56320 + (c.toNat - 65536) % 1024) (by omega)]
      rw [if_pos (by omega : 56320 ≤ 56320 + (c.toNat - 65536) % 1024 ∧
        56320 + (c.toNat - 65536) % 1024 < 57344)]
      rw [ih f rest hft]
      have hC : 65536 + (55296 + (c.toNat - 65536) / 1024 - 55296) * 1024 +
          (56320 + (c.toNat - 65536) % 1024 - 56320) = c.toNat := by omega
      rw [hC, Char.ofNat_toNat]


/-! ### Parser support lemmas -/

theorem skipWs_cons_false (c : Char) (l : List Char) (hc : isJsonWs c = false) :
    skipWs (c :: l) = c :: l := by
  simp [skipWs, List.dropWhile_cons, hc]

theorem skipWs_cons_true (c : Char) (l : List Char) (hc : isJsonWs c = true) :
    skipWs (c :: l) = skipWs l := by
  simp [skipWs, List.dropWhile_cons, hc]

theorem parseVal_cons_ws (fuel : Nat) (c : Char) (l : List Char) (hc : isJsonWs c = true) :
    parseVal fuel (c :: l) = parseVal fuel l := by
  cases fuel with
  | zero => rfl
  | succ f => simp only [parseVal, skipWs_cons_true c l hc]

theorem parseElems_cons_ws (fuel : Nat) (c : Char) (l : List Char) (hc : isJsonWs c = true) :
    parseElems fuel (c :: l) = parseElems fuel l := by
  cases fuel with
  | zero => rfl
  | succ f => simp only [parseElems, parseVal_cons_ws f c l hc]

theorem parseMembers_cons_ws (fuel : Nat) (c : Char) (l : List Char) (hc : isJsonWs c = true) :
    parseMembers fuel (c :: l) = parseMembers fuel l := by
  cases fuel with
  | zero => rfl
  | succ f => simp only [parseMembers, skipWs_cons_true c l hc]

theorem escChar_ne_nil (c : Char) : escChar c ≠ [] := by
  unfold escChar
  split_ifs <;> simp [hex4]

theorem length_le_flatten_esc (s : List Char) :
    s.length ≤ ((s.map escChar).flatten).length := by
  induction s with
  | nil => simp
  | cons c t ih =>
    simp only [List.map_cons, List.flatten_cons, List.length_append, List.length_cons]
    have h1 : 1 ≤ (escChar c).length := by
      cases he : escChar c with
      | nil => exact absurd he (escChar_ne_nil c)
      | cons a b => simp
    omega

theorem Jfuel_pos (j : Json) : 1 ≤ Jfuel j := by
  cases j <;> simp [Jfuel]

theorem intDump_eq_dump (n : Int) : dumpChars (Json.num n) = intDump n := by
  simp [dumpChars]

theorem dumpChars_head (j : Json) :
    ∃ c t, dumpChars j = c :: t ∧ isJsonWs c = false ∧ c ≠ ']' := by
  cases j with
  | null => exact ⟨'n', ['u', 'l', 'l'], by simp [dumpChars], by decide, by decide⟩
  | bool b =>
    cases b with
    | true => exact ⟨'t', ['r', 'u', 'e'], by simp [dumpChars], by decide, by decide⟩
    | false => exact ⟨'f', ['a', 'l', 's', 'e'], by simp [dumpChars], by decide, by decide⟩
  | num n =>
    obtain ⟨c, t, hct, hcls⟩ := intDump_head n
    refine ⟨c, t, by rw [intDump_eq_dump, hct], ?_, ?_⟩
    · rcases hcls with rfl | hd
      · decide
      · exact (digit_head_facts c hd).2.2.2.2.2.2.2.2.2
    · rcases hcls with rfl | hd
      · decide
      · exact (digit_head_facts c hd).2.2.2.2.2.2.1
  | str s =>
    exact ⟨'"', (s.data.map escChar).flatten ++ ['"'],
      by simp [dumpChars, dumpStringChars], by decide, by decide⟩
  | arr xs =>
    exact ⟨'[', dumpElems xs ++ [']'], by simp [dumpChars], by decide, by decide⟩
  | obj kvs =>
    exact ⟨lbrace, dumpMembers kvs ++ [rbrace], by simp [dumpChars], by decide, by decide⟩

theorem parseVal_step_num (f : Nat) (c : Char) (X : List Char)
    (hws : isJsonWs c = false) (hn : c ≠ 'n') (ht : c ≠ 't') (hf2 : c ≠ 'f')
    (hq : c ≠ '"') (hnum : c = '-' ∨ isDigitChar c = true) :
    parseVal (f + 1) (c :: X) =
      (match parseNumber (c :: X) with
       | some p => some (.num p.1, p.2)
       | none => none) := by
  simp only [parseVal, skipWs_cons_false c X hws]
  simp only [hn, ht, hf2, hq, if_false]
  rw [if_pos hnum]

theorem parseVal_step_arr (f : Nat) (c : Char) (X : List Char)
    (hws : isJsonWs c = false) (hne : c ≠ ']') :
    parseVal (f + 1) ('[' :: c :: X) =
      (match parseElems f (c :: X) with
       | some p => some (.arr p.1, p.2)
       | none => none) := by
  have h0 : skipWs ('[' :: c :: X) = '[' :: c :: X := skipWs_cons_false _ _ (by decide)
  simp only [parseVal, h0]
  rw [if_neg (by decide : ¬ ('[' : Char) = 'n'), if_neg (by decide : ¬ ('[' : Char) = 't'),
    if_neg (by decide : ¬ ('[' : Char) = 'f'), if_neg (by decide : ¬ ('[' : Char) = '"'),
    if_neg (by decide : ¬ (('[' : Char) = '-' ∨ isDigitChar '[' = true)),
    if_pos (trivial : True)]
  rw [skipWs_cons_false c X hws]
  simp only [List.head?_cons, Option.some.injEq, hne, if_false]

theorem parseMembers_step (g : Nat) (R : List Char) :
    parseMembers (g + 1) ('"' :: R) =
      (match parseStringBody (R.length + 1) R with
       | some (kcs, r) =>
         (match skipWs r with
          | ':' :: r2 =>
            (match parseVal g r2 with
             | some (v, r3) =>
               (match skipWs r3 with
                | ',' :: r4 =>
                  (match parseMembers g r4 with
                   | some p => some ((String.mk kcs, v) :: p.1, p.2)
                   | none => none)
                | r5 => if r5.head? = some rbrace then some ([(String.mk kcs, v)], r5.tail) else none)
             | none => none)
          | _ => none)
       | none => none) := rfl

theorem parseVal_complete_bounded : ∀ (N : Nat) (j : Json), sizeOf j ≤ N →
    ∀ (fuel : Nat) (rest : List Char), Jfuel j ≤ fuel → numStop rest = true →
    parseVal fuel (dumpChars j ++ rest) = some (j, rest) := by
  intro N
  induction N with
  | zero =>
    intro j hj
    exact absurd hj (by cases j <;> simp)
  | succ N ihN =>
    intro j hj fuel rest hfuel hrest
    obtain ⟨f, rfl⟩ : ∃ f, fuel = f + 1 := by
      have := Jfuel_pos j
      exact ⟨fuel - 1, by omega⟩
    cases j with
    | null => rfl
    | bool b => cases b <;> rfl
    | num n =>
      obtain ⟨c, t, hct, hcls⟩ := intDump_head n
      have hfacts : c ≠ 'n' ∧ c ≠ 't' ∧ c ≠ 'f' ∧ c ≠ '"' ∧ isJsonWs c = false := by
        rcases hcls with rfl | hd
        · exact ⟨by decide, by decide, by decide, by decide, by decide⟩
        · have h := digit_head_facts c hd
          exact ⟨h.2.1, h.2.2.1, h.2.2.2.1, h.2.2.2.2.1, h.2.2.2.2.2.2.2.2.2⟩
      rw [intDump_eq_dump, hct, List.cons_append,
        parseVal_step_num f c (t ++ rest) hfacts.2.2.2.2 hfacts.1 hfacts.2.1 hfacts.2.2.1
          hfacts.2.2.2.1 hcls,
        ← List.cons_append, ← hct, parseNumber_intDump n rest hrest]
    | str s =>
      have hd : dumpChars (.str s) ++ rest =
          '"' :: ((s.data.map escChar).flatten ++ ('"' :: rest)) := by
        simp [dumpChars, dumpStringChars]
      rw [hd]
      rw [show parseVal (f + 1) ('"' :: ((s.data.map escChar).flatten ++ ('"' :: rest))) =
          (match parseStringBody ((((s.data.map escChar).flatten ++ ('"' :: rest))).length + 1)
              ((s.data.map escChar).flatten ++ ('"' :: rest)) with
           | some p => some (.str (String.mk p.1), p.2)
           | none => none) from rfl]
      rw [parseStringBody_complete s.data _ rest (by
        have := length_le_flatten_esc s.data
        simp only [List.length_append, List.length_cons]
        omega)]
    | arr xs =>
      cases xs with
      | nil => rfl
      | cons x xs2 =>
        have hszall : ∀ y ∈ x :: xs2, sizeOf y ≤ N := by
          intro y hy
          have h1 := List.sizeOf_lt_of_mem hy
          have h2 : sizeOf (Json.arr (x :: xs2)) = 1 + sizeOf (x :: xs2) := by simp
          omega
        have helems : ∀ (ys : List Json), ys ≠ [] → (∀ y ∈ ys, sizeOf y ≤ N) →
            ∀ (g : Nat) (r2 : List Char), elemsFuel ys ≤ g → numStop r2 = true →
            parseElems g (dumpElems ys ++ (']' :: r2)) = some (ys, r2) := by
          intro ys
          induction ys with
          | nil => intro h; exact absurd rfl h
          | cons y ys2 ihy =>
            intro _ hsz g r2 hg hr2
            obtain ⟨g2, rfl⟩ : ∃ g2, g = g2 + 1 := by
              simp only [elemsFuel] at hg
              exact ⟨g - 1, by omega⟩
            have hgy : Jfuel y ≤ g2 := by
              simp only [elemsFuel] at hg
              omega
            have hy := ihN y (hsz y (List.mem_cons_self y ys2)) g2
            cases ys2 with
            | nil =>
              have hdE : dumpElems [y] = dumpChars y := by simp [dumpElems]
              rw [hdE]
              rw [show parseElems (g2 + 1) (dumpChars y ++ (']' :: r2)) =
                  (match parseVal g2 (dumpChars y ++ (']' :: r2)) with
                   | some (v, r) =>
                     (match skipWs r with
                      | ',' :: r3 =>
                        (match parseElems g2 r3 with
                         | some p => some (v :: p.1, p.2)
                         | none => none)
                      | ']' :: r3 => some ([v], r3)
                      | _ => none)
                   | none => none) from rfl]
              rw [hy (']' :: r2) hgy (by rfl)]
              rfl
            | cons z zs =>
              have hdE : dumpElems (y :: z :: zs) ++ (']' :: r2) =
                  dumpChars y ++ (',' :: ' ' :: (dumpElems (z :: zs) ++ (']' :: r2))) := by
                simp [dumpElems]
              rw [hdE]
              rw [show parseElems (g2 + 1)
                    (dumpChars y ++ (',' :: ' ' :: (dumpElems (z :: zs) ++ (']' :: r2)))) =
                  (match parseVal g2
                      (dumpChars y ++ (',' :: ' ' :: (dumpElems (z :: zs) ++ (']' :: r2)))) with
                   | some (v, r) =>
                     (match skipWs r with
                      | ',' :: r3 =>
                        (match parseElems g2 r3 with
                         | some p => some (v :: p.1, p.2)
                         | none => none)
                      | ']' :: r3 => some ([v], r3)
                      | _ => none)
                   | none => none) from rfl]
              rw [hy (',' :: ' ' :: (dumpElems (z :: zs) ++ (']' :: r2))) hgy (by rfl)]
              show (match parseElems g2 (' ' :: (dumpElems (z :: zs) ++ (']' :: r2))) with
                    | some p => some (y :: p.1, p.2)
                    | none => none) = some (y :: z :: zs, r2)
              rw [parseElems_cons_ws g2 ' ' _ (by decide)]
              rw [ihy (by simp) (fun w hw => hsz w (List.mem_cons_of_mem y hw)) g2 r2
                (by simp only [elemsFuel] at hg ⊢; omega) hr2]
        have hd : dumpChars (.arr (x :: xs2)) ++ rest =
            '[' :: (dumpElems (x :: xs2) ++ (']' :: rest)) := by
          simp [dumpChars]
        rw [hd]
        obtain ⟨c, t, hct, hws, hne⟩ := dumpChars_head x
        obtain ⟨TAIL, hT⟩ : ∃ TAIL, dumpElems (x :: xs2) ++ (']' :: rest) = c :: TAIL := by
          cases xs2 with
          | nil => exact ⟨t ++ (']' :: rest), by simp [dumpElems, hct]⟩
          | cons z zs =>
            exact ⟨t ++ ',' :: ' ' :: (dumpElems (z :: zs) ++ ']' :: rest),
              by simp [dumpElems, hct]⟩
        rw [hT, parseVal_step_arr f c TAIL hws hne, ← hT]
        rw [helems (x :: xs2) (by simp) hszall f rest
          (by simp only [Jfuel] at hfuel; omega) hrest]
    | obj kvs =>
      cases kvs with
      | nil => rfl
      | cons kv kvs2 =>
        have hszall : ∀ m ∈ kv :: kvs2, sizeOf m.2 ≤ N := by
          intro m hm
          have h1 := List.sizeOf_lt_of_mem hm
          have h2 : sizeOf (Json.obj (kv :: kvs2)) = 1 + sizeOf (kv :: kvs2) := by simp
          obtain ⟨a, b⟩ := m
          have h3 : sizeOf ((a, b) : String × Json) = 1 + sizeOf a + sizeOf b := by simp
          simp only at h1 ⊢
          omega
        have hmems : ∀ (ms : List (String × Json)), ms ≠ [] → (∀ m ∈ ms, sizeOf m.2 ≤ N) →
            ∀ (g : Nat) (r2 : List Char), membersFuel ms ≤ g → numStop r2 = true →
            parseMembers g (dumpMembers ms ++ (rbrace :: r2)) = some (ms, r2) := by
          intro ms
          induction ms with
          | nil => intro h; exact absurd rfl h
          | cons m ms2 ihm =>
            obtain ⟨k1, v1⟩ := m
            intro _ hsz g r2 hg hr2
            obtain ⟨g2, rfl⟩ : ∃ g2, g = g2 + 1 := by
              simp only [membersFuel] at hg
              exact ⟨g - 1, by omega⟩
            have hgv : Jfuel v1 ≤ g2 := by
              simp only [membersFuel] at hg
              omega
            have hv := ihN v1 (hsz (k1, v1) (List.mem_cons_self _ _)) g2
            cases ms2 with
            | nil =>
              have hshape : dumpMembers [(k1, v1)] ++ (rbrace :: r2) =
                  '"' :: ((k1.data.map escChar).flatten ++
                    ('"' :: (':' :: ' ' :: (dumpChars v1 ++ (rbrace :: r2))))) := by
                simp [dumpMembers, dumpStringChars]
              rw [hshape, parseMembers_step]
              rw [parseStringBody_complete k1.data _ _ (by
                have := length_le_flatten_esc k1.data
                simp only [List.length_append, List.length_cons]
                omega)]
              show (match parseVal g2 (' ' :: (dumpChars v1 ++ (rbrace :: r2))) with
                    | some (v, r3) =>
                      (match skipWs r3 with
                       | ',' :: r4 =>
                         (match parseMembers g2 r4 with
                          | some p => some ((String.mk k1.data, v) :: p.1, p.2)
                          | none => none)
                       | r5 =>
                         if r5.head? = some rbrace then
                           some ([(String.mk k1.data, v)], r5.tail)
                         else none)
                    | none => none) = some ([(k1, v1)], r2)
              rw [parseVal_cons_ws g2 ' ' _ (by decide)]
              rw [hv (rbrace :: r2) hgv (by rfl)]
              rfl
            | cons m2 ms3 =>
              have hshape : dumpMembers ((k1, v1) :: m2 :: ms3) ++ (rbrace :: r2) =
                  '"' :: ((k1.data.map escChar).flatten ++
                    ('"' :: (':' :: ' ' :: (dumpChars v1 ++
                      (',' :: ' ' :: (dumpMembers (m2 :: ms3) ++ (rbrace :: r2))))))) := by
                simp [dumpMembers, dumpStringChars]
              rw [hshape, parseMembers_step]
              rw [parseStringBody_complete k1.data _ _ (by
                have := length_le_flatten_esc k1.data
                simp only [List.length_append, List.length_cons]
                omega)]
              show (match parseVal g2 (' ' :: (dumpChars v1 ++
                      (',' :: ' ' :: (dumpMembers (m2 :: ms3) ++ (rbrace :: r2))))) with
                    | some (v, r3) =>
                      (match skipWs r3 with
                       | ',' :: r4 =>
                         (match parseMembers g2 r4 with
                          | some p => some ((String.mk k1.data, v) :: p.1, p.2)
                          | none => none)
                       | r5 =>
                         if r5.head? = some rbrace then
                           some ([(String.mk k1.data, v)], r5.tail)
                         else none)
                    | none => none) = some ((k1, v1) :: m2 :: ms3, r2)
              rw [parseVal_cons_ws g2 ' ' _ (by decide)]
              rw [hv (',' :: ' ' :: (dumpMembers (m2 :: ms3) ++ (rbrace :: r2))) hgv (by rfl)]
              show (match parseMembers g2 (' ' :: (dumpMembers (m2 :: ms3) ++ (rbrace :: r2))) with
                    | some p => some ((String.mk k1.data, v1) :: p.1, p.2)
                    | none => none) = some ((k1, v1) :: m2 :: ms3, r2)
              rw [parseMembers_cons_ws g2 ' ' _ (by decide)]
              rw [ihm (by simp) (fun w hw => hsz w (List.mem_cons_of_mem _ hw)) g2 r2
                (by simp only [membersFuel] at hg ⊢; omega) hr2]
        obtain ⟨k, v⟩ := kv
        have hd : dumpChars (.obj ((k, v) :: kvs2)) ++ rest =
            lbrace :: (dumpMembers ((k, v) :: kvs2) ++ (rbrace :: rest)) := by
          simp [dumpChars]
        rw [hd]
        obtain ⟨TAIL, hT⟩ : ∃ TAIL,
            dumpMembers ((k, v) :: kvs2) ++ (rbrace :: rest) = '"' :: TAIL := by
          cases kvs2 with
          | nil =>
            exact ⟨(k.data.map escChar).flatten ++
              ('"' :: (':' :: ' ' :: (dumpChars v ++ (rbrace :: rest)))),
              by simp [dumpMembers, dumpStringChars]⟩
          | cons m2 ms3 =>
            exact ⟨(k.data.map escChar).flatten ++
              ('"' :: (':' :: ' ' :: (dumpChars v ++
                (',' :: ' ' :: (dumpMembers (m2 :: ms3) ++ (rbrace :: rest)))))),
              by simp [dumpMembers, dumpStringChars]⟩
        rw [hT]
        rw [show parseVal (f + 1) (lbrace :: '"' :: TAIL) =
            (match parseMembers f ('"' :: TAIL) with
             | some p => some (.obj p.1, p.2)
             | none => none) from rfl]
        rw [← hT, hmems ((k, v) :: kvs2) (by simp) hszall f rest
          (by simp only [Jfuel] at hfuel; omega) hrest]

theorem elemsFuel_le (N : Nat)
    (ihN : ∀ (j : Json), sizeOf j ≤ N → Jfuel j ≤ (dumpChars j).length) :
    ∀ (ys : List Json), (∀ y ∈ ys, sizeOf y ≤ N) → ys ≠ [] →
    elemsFuel ys ≤ (dumpElems ys).length + 1 := by
  intro ys
  induction ys with
  | nil => intro _ h; exact absurd rfl h
  | cons x xs2 ihx =>
    intro hsz _
    have hx : Jfuel x ≤ (dumpChars x).length :=
      ihN x (hsz x (List.mem_cons_self x xs2))
    cases xs2 with
    | nil =>
      simp only [elemsFuel, dumpElems]
      omega
    | cons z zs =>
      have hz := ihx (fun y hy => hsz y (List.mem_cons_of_mem x hy)) (by simp)
      have hd : dumpElems (x :: z :: zs) =
          dumpChars x ++ ',' :: ' ' :: dumpElems (z :: zs) := by
        simp [dumpElems]
      simp only [elemsFuel] at hz ⊢
      simp only [hd, List.length_append, List.length_cons]
      omega

theorem membersFuel_le (N : Nat)
    (ihN : ∀ (j : Json), sizeOf j ≤ N → Jfuel j ≤ (dumpChars j).length) :
    ∀ (ms : List (String × Json)), (∀ m ∈ ms, sizeOf m.2 ≤ N) → ms ≠ [] →
    membersFuel ms ≤ (dumpMembers ms).length + 1 := by
  intro ms
  induction ms with
  | nil => intro _ h; exact absurd rfl h
  | cons m ms2 ihm =>
    intro hsz _
    obtain ⟨k, v⟩ := m
    have hv : Jfuel v ≤ (dumpChars v).length :=
      ihN v (hsz (k, v) (List.mem_cons_self _ ms2))
    cases ms2 with
    | nil =>
      simp only [membersFuel, dumpMembers, List.length_append, List.length_cons]
      omega
    | cons m2 ms3 =>
      have hz := ihm (fun w hw => hsz w (List.mem_cons_of_mem _ hw)) (by simp)
      have hd : dumpMembers ((k, v) :: m2 :: ms3) =
          dumpStringChars k.data ++ ':' :: ' ' :: dumpChars v ++
            ',' :: ' ' :: dumpMembers (m2 :: ms3) := by
        simp [dumpMembers]
      simp only [membersFuel] at hz ⊢
      simp only [hd, List.length_append, List.length_cons]
      omega

theorem Jfuel_le_length : ∀ (N : Nat) (j : Json), sizeOf j ≤ N →
    Jfuel j ≤ (dumpChars j).length := by
  intro N
  induction N with
  | zero =>
    intro j hj
    exact absurd hj (by cases j <;> simp)
  | succ N ihN =>
    intro j hj
    cases j with
    | null => decide
    | bool b => cases b <;> decide
    | num n =>
      have h1 := natDump_ne_nil n.natAbs
      have h2 : 1 ≤ (intDump n).length := by
        unfold intDump
        split_ifs
        · simp
        · cases hD : natDump n.natAbs with
          | nil => exact absurd hD h1
          | cons a b => simp [hD]
      simp only [Jfuel, intDump_eq_dump]
      omega
    | str s =>
      simp only [Jfuel, dumpChars, dumpStringChars, List.length_cons, List.length_append]
      omega
    | arr xs =>
      cases xs with
      | nil => decide
      | cons x xs2 =>
        have hszall : ∀ y ∈ x :: xs2, sizeOf y ≤ N := by
          intro y hy
          have h1 := List.sizeOf_lt_of_mem hy
          have h2 : sizeOf (Json.arr (x :: xs2)) = 1 + sizeOf (x :: xs2) := by simp
          omega
        have h := elemsFuel_le N ihN (x :: xs2) hszall (by simp)
        have hd : dumpChars (Json.arr (x :: xs2)) =
            '[' :: (dumpElems (x :: xs2) ++ [']']) := by simp [dumpChars]
        simp only [Jfuel, hd, List.length_cons, List.length_append]
        omega
    | obj kvs =>
      cases kvs with
      | nil => decide
      | cons m ms2 =>
        have hszall : ∀ w ∈ m :: ms2, sizeOf w.2 ≤ N := by
          intro w hw
          have h1 := List.sizeOf_lt_of_mem hw
          have h2 : sizeOf (Json.obj (m :: ms2)) = 1 + sizeOf (m :: ms2) := by simp
          obtain ⟨a, b⟩ := w
          have h3 : sizeOf ((a, b) : String × Json) = 1 + sizeOf a + sizeOf b := by simp
          simp only at h1 ⊢
          omega
        have h := membersFuel_le N ihN (m :: ms2) hszall (by simp)
        have hd : dumpChars (Json.obj (m :: ms2)) =
            lbrace :: (dumpMembers (m :: ms2) ++ [rbrace]) := by simp [dumpChars]
        simp only [Jfuel, hd, List.length_cons, List.length_append]
        omega

/-- `json.loads` inverts `json.dumps` on every modelled JSON value. -/
theorem loads_dumpChars (j : Json) : loads (dumpChars j) = some j := by
  have h1 : parseVal ((dumpChars j).length + 1) (dumpChars j ++ []) = some (j, []) := by
    apply parseVal_complete_bounded (sizeOf j) j le_rfl
    · have := Jfuel_le_length (sizeOf j) j le_rfl
      omega
    · rfl
  rw [List.append_nil] at h1
  simp only [loads, h1]
  rfl

/-! ### Framing round trip -/

theorem utf8Len_pos (c : Char) : 1 ≤ utf8Len c := by
  unfold utf8Len
  split_ifs <;> omega

theorem takeBytes_exact (body rest : List Char) :
    takeBytes (utf8ByteLength body) (body ++ rest) = some (body, rest) := by
  induction body with
  | nil => simp [utf8ByteLength, takeBytes]
  | cons c t ih =>
    have hu := utf8Len_pos c
    have hB : utf8ByteLength (c :: t) = utf8Len c + utf8ByteLength t := by
      simp [utf8ByteLength]
    rw [hB, List.cons_append]
    obtain ⟨k, hk⟩ : ∃ k, utf8Len c + utf8ByteLength t = k + 1 :=
      ⟨utf8Len c + utf8ByteLength t - 1, by omega⟩
    rw [hk]
    simp only [takeBytes]
    rw [if_pos (by omega : utf8Len c ≤ k + 1)]
    have harg : k + 1 - utf8Len c = utf8ByteLength t := by omega
    rw [harg, ih]

theorem dropWhile_all_false {p : Char → Bool} {l : List Char}
    (h : ∀ c ∈ l, p c = false) : l.dropWhile p = l := by
  cases l with
  | nil => rfl
  | cons c t => simp [List.dropWhile_cons, h c (List.mem_cons_self c t)]

theorem readLine_append (l r : List Char) (h : '\n' ∉ l) :
    readLine (l ++ '\n' :: r) = (l ++ ['\n'], r) := by
  induction l with
  | nil => simp [readLine]
  | cons c t ih =>
    have hc : c ≠ '\n' := fun he => h (he ▸ List.mem_cons_self c t)
    simp only [List.cons_append, readLine, hc, if_false, List.append_eq]
    rw [ih (fun hm => h (List.mem_cons_of_mem c hm))]

theorem partitionColon_append (a b : List Char) (h : ':' ∉ a) :
    partitionColon (a ++ ':' :: b) = (a, b) := by
  induction a with
  | nil => simp [partitionColon]
  | cons c t ih =>
    have hc : c ≠ ':' := fun he => h (he ▸ List.mem_cons_self c t)
    simp only [List.cons_append, partitionColon, hc, if_false, List.append_eq]
    rw [ih (fun hm => h (List.mem_cons_of_mem c hm))]

theorem natDump_no_space (n : Nat) : ∀ c ∈ natDump n, isPySpace c = false := by
  intro c hc
  have hd := natDump_all_digits n c hc
  simp only [isDigitChar, Bool.and_eq_true, decide_eq_true_eq] at hd
  simp only [isPySpace, Bool.or_eq_false_iff, decide_eq_false_iff_not]
  refine ⟨⟨⟨⟨⟨?_, ?_⟩, ?_⟩, ?_⟩, ?_⟩, ?_⟩ <;>
    (intro he; subst he; revert hd; decide)

theorem pyStrip_header_value (n : Nat) :
    pyStrip (' ' :: (natDump n ++ ['\r', '\n'])) = natDump n := by
  obtain ⟨c, t, hct, hcd⟩ := natDump_head_digit n
  have hstep1 : (' ' :: (natDump n ++ ['\r', '\n'])).dropWhile isPySpace =
      natDump n ++ ['\r', '\n'] := by
    rw [List.dropWhile_cons]
    simp only [show isPySpace ' ' = true from rfl, if_true]
    rw [hct, List.cons_append, List.dropWhile_cons]
    have : isPySpace c = false := natDump_no_space n c (hct ▸ List.mem_cons_self c t)
    simp [this, ← List.cons_append, ← hct]
  have hstep2 : (natDump n ++ ['\r', '\n']).reverse.dropWhile isPySpace =
      (natDump n).reverse := by
    simp only [List.reverse_append]
    show List.dropWhile isPySpace ('\n' :: '\r' :: (natDump n).reverse) = _
    rw [List.dropWhile_cons]
    simp only [show isPySpace '\n' = true from rfl, if_true]
    rw [List.dropWhile_cons]
    simp only [show isPySpace '\r' = true from rfl, if_true]
    exact dropWhile_all_false (fun c hc =>
      natDump_no_space n c (List.mem_reverse.mp hc))
  simp only [pyStrip, hstep1, hstep2, List.reverse_reverse]

theorem pyInt_natDump (n : Nat) : pyInt (String.mk (natDump n)) = some ((n : Int)) := by
  obtain ⟨c, t, hct, hcd⟩ := natDump_head_digit n
  have hminus : c ≠ '-' := (digit_head_facts c hcd).1
  have hplus : c ≠ '+' := by
    intro he
    subst he
    revert hcd
    decide
  simp only [pyInt]
  rw [hct]
  simp only [List.head?_cons, Option.some.injEq, hminus, hplus, if_false]
  rw [if_pos ⟨by simp, by
    rw [← hct, List.all_eq_true]
    exact fun c hc => natDump_all_digits n c hc⟩]
  rw [← hct, digitsVal_natDump]

theorem readHeaders_cons (c : Char) (r : List Char) (headers : List (String × String)) :
    readHeaders (c :: r) headers =
      (if (readLine (c :: r)).1 = ['\r', '\n'] ∨ (readLine (c :: r)).1 = ['\n'] then
        some (headers, (readLine (c :: r)).2)
      else if (readLine (c :: r)).1.contains ':' then
        readHeaders (readLine (c :: r)).2 (headers ++
          [(String.mk (pyStrip (partitionColon (readLine (c :: r)).1).1),
            String.mk (pyStrip (partitionColon (readLine (c :: r)).1).2))])
      else readHeaders (readLine (c :: r)).2 headers) := by
  rw [readHeaders]

theorem read_write_message (m : Json) (extra : List Char) :
    read_message (write_message m ++ extra) = (ReadOutcome.msg m, extra) := by
  have hA : ("Content-Length: ".data ++ natDump (utf8ByteLength (dumpChars m)) ++ ['\r'] : List Char) =
      ['C','o','n','t','e','n','t','-','L','e','n','g','t','h',':',' '] ++
        natDump (utf8ByteLength (dumpChars m)) ++ ['\r'] := rfl
  have hnlA : '\n' ∉ ("Content-Length: ".data ++
      natDump (utf8ByteLength (dumpChars m)) ++ ['\r'] : List Char) := by
    rw [hA]
    intro hmem
    rcases List.mem_append.mp hmem with h1 | h2
    · rcases List.mem_append.mp h1 with h3 | h4
      · revert h3; decide
      · have := natDump_no_space (utf8ByteLength (dumpChars m)) '\n' h4
        exact absurd this (by decide)
    · revert h2; decide
  have hshape : write_message m ++ extra =
      ("Content-Length: ".data ++ natDump (utf8ByteLength (dumpChars m)) ++ ['\r']) ++
        '\n' :: ('\r' :: '\n' :: (dumpChars m ++ extra)) := by
    rw [write_message]
    simp
  have hcons : ("Content-Length: ".data ++ natDump (utf8ByteLength (dumpChars m)) ++ ['\r']) ++
      '\n' :: ('\r' :: '\n' :: (dumpChars m ++ extra)) =
      'C' :: ((['o','n','t','e','n','t','-','L','e','n','g','t','h',':',' '] ++
        natDump (utf8ByteLength (dumpChars m)) ++ ['\r']) ++
          '\n' :: ('\r' :: '\n' :: (dumpChars m ++ extra))) := by
    rw [hA]
    rfl
  have hRL : readLine (("Content-Length: ".data ++
      natDump (utf8ByteLength (dumpChars m)) ++ ['\r']) ++
        '\n' :: ('\r' :: '\n' :: (dumpChars m ++ extra))) =
      (("Content-Length: ".data ++ natDump (utf8ByteLength (dumpChars m)) ++ ['\r']) ++ ['\n'],
       '\r' :: '\n' :: (dumpChars m ++ extra)) :=
    readLine_append _ _ hnlA
  have hblank : ¬((("Content-Length: ".data ++
      natDump (utf8ByteLength (dumpChars m)) ++ ['\r']) ++ ['\n'] : List Char) = ['\r', '\n'] ∨
      (("Content-Length: ".data ++
        natDump (utf8ByteLength (dumpChars m)) ++ ['\r']) ++ ['\n'] : List Char) = ['\n']) := by
    rw [hA]
    rintro (h | h) <;>
      · have hh := congrArg List.head? h
        rw [show ((['C','o','n','t','e','n','t','-','L','e','n','g','t','h',':',' '] ++
          natDump (utf8ByteLength (dumpChars m)) ++ ['\r']) ++ ['\n'] :
            List Char).head? = some 'C' from rfl] at hh
        exact absurd hh (by decide)
  have hcolon : ((("Content-Length: ".data ++
      natDump (utf8ByteLength (dumpChars m)) ++ ['\r']) ++ ['\n']) : List Char).contains ':' = true := by
    rw [hA]
    rfl
  have hline : (("Content-Length: ".data ++
      natDump (utf8ByteLength (dumpChars m)) ++ ['\r']) ++ ['\n'] : List Char) =
      ['C','o','n','t','e','n','t','-','L','e','n','g','t','h'] ++ ':' ::
        (' ' :: (natDump (utf8ByteLength (dumpChars m)) ++ ['\r', '\n'])) := by
    rw [hA]
    simp
  have hpart : partitionColon (("Content-Length: ".data ++
      natDump (utf8ByteLength (dumpChars m)) ++ ['\r']) ++ ['\n']) =
      (['C','o','n','t','e','n','t','-','L','e','n','g','t','h'],
       ' ' :: (natDump (utf8ByteLength (dumpChars m)) ++ ['\r', '\n'])) := by
    rw [hline]
    exact partitionColon_append _ _ (by decide)
  have h1 : readHeaders (write_message m ++ extra) [] =
      readHeaders ('\r' :: '\n' :: (dumpChars m ++ extra))
        [("Content-Length", String.mk (natDump (utf8ByteLength (dumpChars m))))] := by
    rw [hshape, hcons, readHeaders_cons, ← hcons, hRL, if_neg hblank, if_pos hcolon, hpart]
    rw [pyStrip_header_value]
    rw [show String.mk (pyStrip ['C','o','n','t','e','n','t','-','L','e','n','g','t','h']) =
      "Content-Length" from rfl]
    rw [List.nil_append]
  have h2 : readHeaders ('\r' :: '\n' :: (dumpChars m ++ extra))
      [("Content-Length", String.mk (natDump (utf8ByteLength (dumpChars m))))] =
      some ([("Content-Length", String.mk (natDump (utf8ByteLength (dumpChars m))))],
        dumpChars m ++ extra) := by
    rw [readHeaders_cons]
    rw [show readLine ('\r' :: '\n' :: (dumpChars m ++ extra)) =
      (['\r', '\n'], dumpChars m ++ extra) from rfl]
    rw [if_pos (Or.inl rfl)]
  have hheaders : readHeaders (write_message m ++ extra) [] =
      some ([("Content-Length", String.mk (natDump (utf8ByteLength (dumpChars m))))],
        dumpChars m ++ extra) := by
    rw [h1, h2]
  have hget : hdrGet [("Content-Length", String.mk (natDump (utf8ByteLength (dumpChars m))))]
      "Content-Length" = some (String.mk (natDump (utf8ByteLength (dumpChars m)))) := rfl
  simp only [read_message, hheaders, hget, pyInt_natDump]
  rw [if_neg (by omega : ¬ ((utf8ByteLength (dumpChars m) : Int) < 0))]
  rw [show ((utf8ByteLength (dumpChars m) : Int)).toNat = utf8ByteLength (dumpChars m) by omega]
  simp only [takeBytes_exact, loads_dumpChars]

/-- C9: encoding a message of request, response (result or error), or
notification shape with the framing codec (`_write_message`) and decoding
the produced characters with `_read_message` yields the same message, with
nothing left in the stream. The shapes cover empty `params` / arbitrary
`result` objects since the parameters range over all modelled values. -/
theorem c9_frame_round_trip (m : Json)
    (hshape : (∃ id method params, m = requestMsg id method params) ∨
      (∃ id result, m = responseResultMsg id result) ∨
      (∃ id code message, m = responseErrorMsg id code message) ∨
      (∃ method params, m = notificationMsg method params)) :
    read_message (write_message m) = (ReadOutcome.msg m, []) := by
  obtain ⟨i, meth, ps, rfl⟩ | ⟨i, res, rfl⟩ | ⟨i, cd, msg, rfl⟩ | ⟨meth, ps, rfl⟩ := hshape
  · have h := read_write_message (requestMsg i meth ps) []
    rwa [List.append_nil] at h
  · have h := read_write_message (responseResultMsg i res) []
    rwa [List.append_nil] at h
  · have h := read_write_message (responseErrorMsg i cd msg) []
    rwa [List.append_nil] at h
  · have h := read_write_message (notificationMsg meth ps) []
    rwa [List.append_nil] at h

theorem c9_frame_round_trip_witness :
    read_message (write_message (requestMsg 1 "ping" [])) =
      (ReadOutcome.msg (requestMsg 1 "ping" []), []) :=
  c9_frame_round_trip (requestMsg 1 "ping" []) (Or.inl ⟨1, "ping", [], rfl⟩)

/-- A complete header block with no `Content-Length` header: the decoder
returns the same `None` (modelled `eofNone`) as it does for an empty
stream; the two conditions are not distinguishable at the decoder's
interface, and no exception is raised. -/
theorem c2_counterexample :
    read_message "X-Foo: 1\r\n\r\n".data = (ReadOutcome.eofNone, []) ∧
      read_message [] = (ReadOutcome.eofNone, []) := by
  have hdata : "X-Foo: 1\r\n\r\n".data =
      ['X','-','F','o','o',':',' ','1','\r','\n','\r','\n'] := rfl
  have hc : readHeaders "X-Foo: 1\r\n\r\n".data [] = some ([("X-Foo", "1")], []) := by
    rw [hdata, readHeaders_cons]
    rw [show readLine ['X','-','F','o','o',':',' ','1','\r','\n','\r','\n'] =
      (['X','-','F','o','o',':',' ','1','\r','\n'], ['\r','\n']) from rfl]
    rw [if_neg (by decide), if_pos (by decide : (['X','-','F','o','o',':',' ','1','\r','\n'] :
      List Char).contains ':' = true)]
    rw [readHeaders_cons]
    rw [show readLine ['\r','\n'] = (['\r','\n'], ([] : List Char)) from rfl]
    rw [if_pos (Or.inl rfl)]
    rfl
  have hempty : readHeaders ([] : List Char) [] = none := by rw [readHeaders]
  constructor
  · simp only [read_message, hc]
    rfl
  · simp only [read_message, hempty]

/-- C2 (amended): whenever the header loop completes on a header block
holding no `Content-Length` key, `_read_message` returns the same
end-of-stream signal `None` (modelled `eofNone`) it returns for a stream
that ends before any header, rather than a distinguishable protocol
error; in particular no exception outcome arises in either case. -/
theorem c2_missing_length_signals_eof (stream : List Char)
    (headers : List (String × String)) (rest : List Char)
    (hcomplete : readHeaders stream [] = some (headers, rest))
    (hnolen : hdrGet headers "Content-Length" = none) :
    (read_message stream).1 = ReadOutcome.eofNone ∧
      (read_message []).1 = ReadOutcome.eofNone ∧
      (read_message stream).1 ≠ ReadOutcome.exn := by
  have hs : (read_message stream).1 = ReadOutcome.eofNone := by
    simp only [read_message, hcomplete, hnolen]
  have hempty : readHeaders ([] : List Char) [] = none := by rw [readHeaders]
  refine ⟨hs, ?_, ?_⟩
  · simp only [read_message, hempty]
  · rw [hs]
    intro h
    exact ReadOutcome.noConfusion h

theorem c2_missing_length_signals_eof_witness :
    (read_message "X-Foo: 1\r\n\r\n".data).1 = ReadOutcome.eofNone ∧
      (read_message []).1 = ReadOutcome.eofNone ∧
      (read_message "X-Foo: 1\r\n\r\n".data).1 ≠ ReadOutcome.exn := by
  have hdata : "X-Foo: 1\r\n\r\n".data =
      ['X','-','F','o','o',':',' ','1','\r','\n','\r','\n'] := rfl
  have hc : readHeaders "X-Foo: 1\r\n\r\n".data [] = some ([("X-Foo", "1")], []) := by
    rw [hdata, readHeaders_cons]
    rw [show readLine ['X','-','F','o','o',':',' ','1','\r','\n','\r','\n'] =
      (['X','-','F','o','o',':',' ','1','\r','\n'], ['\r','\n']) from rfl]
    rw [if_neg (by decide), if_pos (by decide : (['X','-','F','o','o',':',' ','1','\r','\n'] :
      List Char).contains ':' = true)]
    rw [readHeaders_cons]
    rw [show readLine ['\r','\n'] = (['\r','\n'], ([] : List Char)) from rfl]
    rw [if_pos (Or.inl rfl)]
    rfl
  exact c2_missing_length_signals_eof "X-Foo: 1\r\n\r\n".data [("X-Foo", "1")] [] hc rfl
